import Mathlib

/-!
# Sygma relayer: substrate event handlers and the elector test configuration

A shallow embedding of

* `chains/substrate/listener/event-handlers.go`
  (`FungibleTransferEventHandler.HandleEvents`, `RetryEventHandler.HandleEvents`),
* the `BullyConfig` literal built by `SetupIndividualTest` in `comm/elector/bully_test.go`.

Collaborators behind Go interfaces (`DepositHandler`, `ChainConnection`) and the
`mapstructure.Decode` calls are parameters.  A collaborator call has three outcomes: it
returns a value, returns a Go error, or panics.  Interface calls thread an abstract world
state `σ`, so a collaborator may answer differently on every call.

Events are values: a nil `*parser.Event` inside a slice is outside the model.
-/

namespace Sygma

/-! ## Go control flow -/

/-- A Go `error` value that is not nil. -/
abbrev GoError := String

/-- Outcome of one call into a collaborator. -/
inductive Outcome (α : Type) where
  | ok (a : α)
  | err (e : GoError)
  | panics
  deriving DecidableEq, Repr

/-- How a Go function body ends: it returns a value, or a panic is unwinding the stack. -/
inductive Flow (α : Type) where
  | returned (a : α)
  | panicking
  deriving DecidableEq, Repr

/-- The deferred `func() { if r := recover(); r != nil { log } }()` of a function literal whose
results are unnamed: a panic of the body is stopped and the literal returns the zero value
`zero`; the state reached before the panic is kept. -/
def recoverDeferred {α S : Type} (zero : α) : Flow α × S → Flow α × S
  | (Flow.panicking, s) => (Flow.returned zero, s)
  | r => r

/-! ## Data -/

/-- The fields of `message.Message` the handlers read. -/
structure Message where
  Source : Nat
  Destination : Nat
  DepositNonce : Nat
  deriving DecidableEq, Repr

/-- A `parser.Event`: its name and its undecoded fields. -/
structure Event (F : Type) where
  Name : String
  Fields : F
  deriving DecidableEq, Repr

/-- The decoded `events.Deposit`, as passed to `HandleDeposit`. -/
structure Deposit where
  DestDomainID : Nat
  DepositNonce : Nat
  ResourceID : Nat
  CallData : List Nat
  TransferType : Nat
  deriving DecidableEq, Repr

/-- The decoded `events.Retry`; `DepositOnBlockHeight` is a `types.U128`, an unsigned big
integer (a decoded value: a `U128` without a number is outside the model). -/
structure Retry where
  DepositOnBlockHeight : Nat
  deriving DecidableEq, Repr

/-- The Go map `domainDeposits : map[uint8][]*message.Message`, as an association list with
one entry per key. -/
abbrev DomainDeposits := List (Nat × List Message)

/-- The value `domainDeposits[k]`: the stored slice, or the nil slice for an absent key. -/
def mapGet : DomainDeposits → Nat → List Message
  | [], _ => []
  | (k1, v) :: rest, k => if k1 = k then v else mapGet rest k

/-- The assignment `domainDeposits[k] = v`. -/
def mapSet : DomainDeposits → Nat → List Message → DomainDeposits
  | [], k, v => [(k, v)]
  | (k1, v1) :: rest, k, v => if k1 = k then (k1, v) :: rest else (k1, v1) :: mapSet rest k v

/-- The statement `domainDeposits[m.Destination] = append(domainDeposits[m.Destination], m)`. -/
def appendDeposit (dd : DomainDeposits) (m : Message) : DomainDeposits :=
  mapSet dd m.Destination (mapGet dd m.Destination ++ [m])

/-- What the handlers take from outside `event-handlers.go`: the event-name constants of
package `events`, the `mapstructure.Decode` calls, and the order in which a `range` over the
map visits its entries (unspecified in Go: any rearrangement of the entries). -/
structure Env (F : Type) where
  DepositEvent : String
  RetryEvent : String
  decodeDeposit : F → Outcome Deposit
  decodeRetry : F → Outcome Retry
  rangeOrder : DomainDeposits → DomainDeposits

/-- A `range` over a map visits every entry exactly once. -/
def Env.RangeVisitsAll {F : Type} (env : Env F) : Prop :=
  ∀ dd : DomainDeposits, (env.rangeOrder dd).Perm dd

/-- The method `DepositHandler.HandleDeposit(sourceID, destID, nonce, resourceID, calldata,
transferType)`: it returns `(m, nil)` (with `m` possibly nil), returns an error, or panics. -/
abbrev HandleDepositFn (σ : Type) :=
  Nat → Nat → Nat → Nat → List Nat → Nat → σ → Outcome (Option Message) × σ

/-! ## FungibleTransferEventHandler -/

/-- The receiver `FungibleTransferEventHandler` (its logger left out). -/
structure FungibleTransferEventHandler (σ : Type) where
  domainID : Nat
  depositHandler : HandleDepositFn σ

/-- Body of the function literal that handles one deposit event (lines 87-104), before its
deferred recover. -/
def FungibleTransferEventHandler.depositBody {F σ : Type} (env : Env F)
    (eh : FungibleTransferEventHandler σ) (evt : Event F) (dd : DomainDeposits) (w : σ) :
    Flow Unit × DomainDeposits × σ :=
  match env.decodeDeposit evt.Fields with
  | Outcome.panics => (Flow.panicking, dd, w)
  | Outcome.err _ => (Flow.returned (), dd, w)
  | Outcome.ok d =>
    match eh.depositHandler eh.domainID d.DestDomainID d.DepositNonce d.ResourceID d.CallData
        d.TransferType w with
    | (Outcome.panics, w1) => (Flow.panicking, dd, w1)
    | (Outcome.err _, w1) => (Flow.returned (), dd, w1)
    -- a nil message is dereferenced (lines 102-104)
    | (Outcome.ok none, w1) => (Flow.panicking, dd, w1)
    | (Outcome.ok (some m), w1) => (Flow.returned (), appendDeposit dd m, w1)

/-- The loop `for _, evt := range evts` of `FungibleTransferEventHandler.HandleEvents`. A panic
that leaves the function literal would leave the loop and the method. -/
def FungibleTransferEventHandler.eventLoop {F σ : Type} (env : Env F)
    (eh : FungibleTransferEventHandler σ) :
    List (Event F) → DomainDeposits → σ → Flow Unit × DomainDeposits × σ
  | [], dd, w => (Flow.returned (), dd, w)
  | evt :: rest, dd, w =>
    if evt.Name = env.DepositEvent then
      match recoverDeferred () (eh.depositBody env evt dd w) with
      | (Flow.returned _, dd1, w1) => eh.eventLoop env rest dd1 w1
      | (Flow.panicking, dd1, w1) => (Flow.panicking, dd1, w1)
    else eh.eventLoop env rest dd w

/-- The method `FungibleTransferEventHandler.HandleEvents`: its control flow with the returned
error, the batches handed to `msgChan` (one goroutine each), and the world state. -/
def FungibleTransferEventHandler.HandleEvents {F σ : Type} (env : Env F)
    (eh : FungibleTransferEventHandler σ) (evts : List (Event F)) (w : σ) :
    Flow (Option GoError) × List (List Message) × σ :=
  match eh.eventLoop env evts [] w with
  | (Flow.returned _, dd, w1) => (Flow.returned none, (env.rangeOrder dd).map Prod.snd, w1)
  | (Flow.panicking, _, w1) => (Flow.panicking, [], w1)

/-- The deposit messages resolved from a list of events, in event order: the message of every
deposit event whose fields decode and whose `HandleDeposit` call returns a message and no
error. Stated without the map, for comparison with `HandleEvents`. -/
def FungibleTransferEventHandler.resolved {F σ : Type} (env : Env F)
    (eh : FungibleTransferEventHandler σ) : List (Event F) → σ → List Message
  | [], _ => []
  | evt :: rest, w =>
    if evt.Name = env.DepositEvent then
      match env.decodeDeposit evt.Fields with
      | Outcome.ok d =>
        match eh.depositHandler eh.domainID d.DestDomainID d.DepositNonce d.ResourceID d.CallData
            d.TransferType w with
        | (Outcome.ok (some m), w1) => m :: eh.resolved env rest w1
        | (_, w1) => eh.resolved env rest w1
      | _ => eh.resolved env rest w
    else eh.resolved env rest w

/-- The map holds exactly the messages of `R`, grouped by destination: its keys are distinct
and are the destinations that occur in `R`, and the slice stored under a key is the
subsequence of `R` with that destination. -/
def GroupsOf (dd : DomainDeposits) (R : List Message) : Prop :=
  (dd.map Prod.fst).Nodup ∧
  (∀ k, mapGet dd k = R.filter (fun m => decide (m.Destination = k))) ∧
  (∀ k, k ∈ dd.map Prod.fst ↔ ∃ m ∈ R, m.Destination = k)

/-! ## RetryEventHandler -/

/-- A block hash (`types.Hash`). -/
abbrev Hash := Nat

/-- The field of `types.SignedBlock` that is read: `Block.Header.Number`, a `uint32`. -/
structure SignedBlock where
  Number : Nat
  deriving DecidableEq, Repr

/-- The methods of the interface `ChainConnection` that `RetryEventHandler` calls. `GetBlock`
returns a pointer, which may be nil. -/
structure ChainConnection (F σ : Type) where
  GetFinalizedHead : σ → Outcome Hash × σ
  GetBlock : Hash → σ → Outcome (Option SignedBlock) × σ
  GetBlockHash : Nat → σ → Outcome Hash × σ
  GetBlockEvents : Hash → σ → Outcome (List (Event F)) × σ

/-- A call made on the chain connection, with its argument. -/
inductive ConnCall where
  | GetFinalizedHead
  | GetBlock (hash : Hash)
  | GetBlockHash (blockNumber : Nat)
  | GetBlockEvents (hash : Hash)
  deriving DecidableEq, Repr

/-- The receiver `RetryEventHandler` (its logger left out). -/
structure RetryEventHandler (F σ : Type) where
  conn : ChainConnection F σ
  domainID : Nat
  depositHandler : HandleDepositFn σ

/-- State of one `RetryEventHandler.HandleEvents` call: the local map, the world the
collaborators act on, and (ghost) the connection calls made so far, oldest first. -/
structure RetryState (σ : Type) where
  domainDeposits : DomainDeposits
  world : σ
  calls : List ConnCall
  deriving DecidableEq, Repr

/-- The loop `for _, event := range bEvts` (lines 181-199) over the events of the deposit's
block. -/
def RetryEventHandler.blockEventLoop {F σ : Type} (env : Env F) (rh : RetryEventHandler F σ) :
    List (Event F) → RetryState σ → Flow (Option GoError) × RetryState σ
  | [], s => (Flow.returned none, s)
  | event :: rest, s =>
    if event.Name = env.DepositEvent then
      match env.decodeDeposit event.Fields with
      | Outcome.panics => (Flow.panicking, s)
      | Outcome.err e => (Flow.returned (some e), s)
      | Outcome.ok d =>
        match rh.depositHandler rh.domainID d.DestDomainID d.DepositNonce d.ResourceID
            d.CallData d.TransferType s.world with
        | (Outcome.panics, w1) => (Flow.panicking, ⟨s.domainDeposits, w1, s.calls⟩)
        | (Outcome.err e, w1) => (Flow.returned (some e), ⟨s.domainDeposits, w1, s.calls⟩)
        -- a nil message is dereferenced (line 197)
        | (Outcome.ok none, w1) => (Flow.panicking, ⟨s.domainDeposits, w1, s.calls⟩)
        | (Outcome.ok (some m), w1) =>
          rh.blockEventLoop env rest ⟨appendDeposit s.domainDeposits m, w1, s.calls⟩
    else rh.blockEventLoop env rest s

/-- Lines 169-201: look up the block at `blockNumber` and resolve its deposits. -/
def RetryEventHandler.resolveBlock {F σ : Type} (env : Env F) (rh : RetryEventHandler F σ)
    (blockNumber : Nat) (s : RetryState σ) : Flow (Option GoError) × RetryState σ :=
  match rh.conn.GetBlockHash blockNumber s.world with
  | (Outcome.panics, w1) =>
    (Flow.panicking, ⟨s.domainDeposits, w1, s.calls ++ [ConnCall.GetBlockHash blockNumber]⟩)
  | (Outcome.err e, w1) =>
    (Flow.returned (some e),
      ⟨s.domainDeposits, w1, s.calls ++ [ConnCall.GetBlockHash blockNumber]⟩)
  | (Outcome.ok bh, w1) =>
    match rh.conn.GetBlockEvents bh w1 with
    | (Outcome.panics, w2) =>
      (Flow.panicking, ⟨s.domainDeposits, w2,
        s.calls ++ [ConnCall.GetBlockHash blockNumber, ConnCall.GetBlockEvents bh]⟩)
    | (Outcome.err e, w2) =>
      (Flow.returned (some e), ⟨s.domainDeposits, w2,
        s.calls ++ [ConnCall.GetBlockHash blockNumber, ConnCall.GetBlockEvents bh]⟩)
    | (Outcome.ok bEvts, w2) =>
      rh.blockEventLoop env bEvts ⟨s.domainDeposits, w2,
        s.calls ++ [ConnCall.GetBlockHash blockNumber, ConnCall.GetBlockEvents bh]⟩

/-- Body of the function literal that handles one retry event (lines 158-201), before its
deferred recover. `finalizedBlockNumber` is the value of the local of that name;
`er.DepositOnBlockHeight.Uint64()` keeps the low 64 bits. -/
def RetryEventHandler.retryBody {F σ : Type} (env : Env F) (rh : RetryEventHandler F σ)
    (finalizedBlockNumber : Nat) (evt : Event F) (s : RetryState σ) :
    Flow (Option GoError) × RetryState σ :=
  match env.decodeRetry evt.Fields with
  | Outcome.panics => (Flow.panicking, s)
  | Outcome.err e => (Flow.returned (some e), s)
  | Outcome.ok er =>
    if finalizedBlockNumber < er.DepositOnBlockHeight then (Flow.returned none, s)
    else rh.resolveBlock env (er.DepositOnBlockHeight % 2 ^ 64) s

/-- The function literal of lines 152-202 with its deferred recover: after a recovered panic
it returns the zero value of `error`, nil. -/
def RetryEventHandler.retryEvent {F σ : Type} (env : Env F) (rh : RetryEventHandler F σ)
    (finalizedBlockNumber : Nat) (evt : Event F) (s : RetryState σ) :
    Flow (Option GoError) × RetryState σ :=
  recoverDeferred none (rh.retryBody env finalizedBlockNumber evt s)

/-- The loop `for _, evt := range evts` of `RetryEventHandler.HandleEvents` (lines 150-208): an
error returned by the function literal is returned by the method. -/
def RetryEventHandler.eventLoop {F σ : Type} (env : Env F) (rh : RetryEventHandler F σ)
    (finalizedBlockNumber : Nat) :
    List (Event F) → RetryState σ → Flow (Option GoError) × RetryState σ
  | [], s => (Flow.returned none, s)
  | evt :: rest, s =>
    if evt.Name = env.RetryEvent then
      match rh.retryEvent env finalizedBlockNumber evt s with
      | (Flow.returned none, s1) => rh.eventLoop env finalizedBlockNumber rest s1
      | (Flow.returned (some e), s1) => (Flow.returned (some e), s1)
      | (Flow.panicking, s1) => (Flow.panicking, s1)
    else rh.eventLoop env finalizedBlockNumber rest s

/-- The method `RetryEventHandler.HandleEvents`: its control flow with the returned error, the
batches sent on `msgChan` by this call, and the final state. The calls before the loop are
outside any recover. The block number is a `uint32`, widened to `int64` without loss. -/
def RetryEventHandler.HandleEvents {F σ : Type} (env : Env F) (rh : RetryEventHandler F σ)
    (evts : List (Event F)) (w : σ) :
    Flow (Option GoError) × List (List Message) × RetryState σ :=
  match rh.conn.GetFinalizedHead w with
  | (Outcome.panics, w1) => (Flow.panicking, [], ⟨[], w1, [ConnCall.GetFinalizedHead]⟩)
  | (Outcome.err e, w1) => (Flow.returned (some e), [], ⟨[], w1, [ConnCall.GetFinalizedHead]⟩)
  | (Outcome.ok hash, w1) =>
    match rh.conn.GetBlock hash w1 with
    | (Outcome.panics, w2) =>
      (Flow.panicking, [], ⟨[], w2, [ConnCall.GetFinalizedHead, ConnCall.GetBlock hash]⟩)
    | (Outcome.err e, w2) =>
      (Flow.returned (some e), [],
        ⟨[], w2, [ConnCall.GetFinalizedHead, ConnCall.GetBlock hash]⟩)
    -- `finalized.Block` on a nil block
    | (Outcome.ok none, w2) =>
      (Flow.panicking, [], ⟨[], w2, [ConnCall.GetFinalizedHead, ConnCall.GetBlock hash]⟩)
    | (Outcome.ok (some finalized), w2) =>
      match rh.eventLoop env (finalized.Number % 2 ^ 32) evts
          ⟨[], w2, [ConnCall.GetFinalizedHead, ConnCall.GetBlock hash]⟩ with
      | (Flow.returned none, s) =>
        (Flow.returned none, (env.rangeOrder s.domainDeposits).map Prod.snd, s)
      | (Flow.returned (some e), s) => (Flow.returned (some e), [], s)
      | (Flow.panicking, s) => (Flow.panicking, [], s)

/-! ## The elector configuration of `bully_test.go` -/

/-- A `time.Duration`: a count of nanoseconds held in an `int64`. -/
abbrev Duration := Int

/-- Reduction of an integer to the `int64` range. -/
def toInt64 (x : Int) : Int := (x + 2 ^ 63) % 2 ^ 64 - 2 ^ 63

/-- The constant `time.Second`. -/
def Second : Duration := 1000000000

/-- The fields of `relayer.BullyConfig` set by the test. -/
structure BullyConfig where
  PingWaitTime : Duration
  PingBackOff : Duration
  PingInterval : Duration
  ElectionWaitTime : Duration
  BullyWaitTime : Duration
  deriving DecidableEq, Repr

/-- A libp2p `peer.ID`. -/
abbrev PeerID := Nat

/-- A `RelayerTestDescriber` of the test file. -/
structure RelayerTestDescriber where
  name : String
  index : Nat
  initialDelay : Duration
  deriving DecidableEq, Repr

/-- A `BullyTestCase` of the test file. -/
structure BullyTestCase where
  name : String
  isLeaderActive : Bool
  testRelayers : List RelayerTestDescriber
  deriving DecidableEq, Repr

/-- What `NewBullyCoordinatorElector(sessionID, host, config, com)` is constructed with. -/
structure ElectorArgs where
  sessionID : String
  host : PeerID
  conf : BullyConfig
  deriving DecidableEq, Repr

/-- The `relayer.BullyConfig` literal of `SetupIndividualTest` (lines 106-112). -/
def testBullyConfig : BullyConfig :=
  ⟨toInt64 (1 * Second), toInt64 (1 * Second), toInt64 (1 * Second), toInt64 (2 * Second),
    toInt64 (25 * Second)⟩

/-- The part of `SetupIndividualTest` that builds the electors. `hostID i` is the id of the
i-th generated host and `SortPeersForSession` the ordering of package `common`; the result is
`none` where the Go code indexes `sortedPeers` out of range. Returned: the electors (nil for
an inactive leader), the initial and the final coordinator, and the allowed peers. -/
def SetupIndividualTest (testSessionID : String) (hostID : Nat → PeerID)
    (SortPeersForSession : List PeerID → String → List PeerID) (c : BullyTestCase) :
    Option (List (Option ElectorArgs) × PeerID × PeerID × List PeerID) :=
  let numberOfTestHosts := c.testRelayers.length
  let allowedPeers := (List.range numberOfTestHosts).map hostID
  let sortedPeers := SortPeersForSession allowedPeers testSessionID
  match sortedPeers.get? 0 with
  | none => none
  | some initialCoordinator =>
    let finalCoordinator? :=
      if !c.isLeaderActive then sortedPeers.get? 1 else some initialCoordinator
    match finalCoordinator? with
    | none => none
    | some finalCoordinator =>
      let testBullyCoordinators := (List.range numberOfTestHosts).map fun i =>
        if !c.isLeaderActive && hostID i == initialCoordinator then none
        else some (ElectorArgs.mk testSessionID (hostID i) testBullyConfig)
      some (testBullyCoordinators, initialCoordinator, finalCoordinator, allowedPeers)

/-- Nothing is ever taken out of the map: under every key the slice of `dd1` extends the slice
of `dd`. -/
def MapGrows (dd dd1 : DomainDeposits) : Prop :=
  ∀ k, ∃ t, mapGet dd1 k = mapGet dd k ++ t

/-- The messages of a run of block events all of whose deposit events succeed: every deposit
event decodes and its `HandleDeposit` call returns a message and no error. The result is the
messages in event order with the world after the calls, and `none` as soon as a deposit event
fails to decode, is refused, panics or yields a nil message. Stated without the map and
without control flow, for comparison with `blockEventLoop`. -/
def RetryEventHandler.blockMessages {F σ : Type} (env : Env F) (rh : RetryEventHandler F σ) :
    List (Event F) → σ → Option (List Message × σ)
  | [], w => some ([], w)
  | event :: rest, w =>
    if event.Name = env.DepositEvent then
      match env.decodeDeposit event.Fields with
      | Outcome.ok d =>
        match rh.depositHandler rh.domainID d.DestDomainID d.DepositNonce d.ResourceID
            d.CallData d.TransferType w with
        | (Outcome.ok (some m), w1) =>
          match rh.blockMessages env rest w1 with
          | some (ms, w2) => some (m :: ms, w2)
          | none => none
        | _ => none
      | _ => none
    else rh.blockMessages env rest w

/-- The map after the messages `ms` were appended to it one by one. -/
def appendAll (dd : DomainDeposits) (ms : List Message) : DomainDeposits :=
  ms.foldl appendDeposit dd

/-- The deposit event `bevt` of a block, handled in world `w`, fails with the error `e` and
leaves the world `w1`: its fields do not decode, or `HandleDeposit` returns `e`. -/
def RetryEventHandler.DepositFails {F σ : Type} (env : Env F) (rh : RetryEventHandler F σ)
    (bevt : Event F) (w : σ) (e : GoError) (w1 : σ) : Prop :=
  bevt.Name = env.DepositEvent ∧
  ((env.decodeDeposit bevt.Fields = Outcome.err e ∧ w1 = w) ∨
    ∃ d, env.decodeDeposit bevt.Fields = Outcome.ok d ∧
      rh.depositHandler rh.domainID d.DestDomainID d.DepositNonce d.ResourceID d.CallData
        d.TransferType w = (Outcome.err e, w1))

/-- The deposit event `bevt` of a block, handled in world `w`, panics and leaves the world
`w1`: the decoder panics, `HandleDeposit` panics, or `HandleDeposit` returns a nil message
without error. -/
def RetryEventHandler.DepositPanics {F σ : Type} (env : Env F) (rh : RetryEventHandler F σ)
    (bevt : Event F) (w : σ) (w1 : σ) : Prop :=
  bevt.Name = env.DepositEvent ∧
  ((env.decodeDeposit bevt.Fields = Outcome.panics ∧ w1 = w) ∨
    ∃ d, env.decodeDeposit bevt.Fields = Outcome.ok d ∧
      (rh.depositHandler rh.domainID d.DestDomainID d.DepositNonce d.ResourceID d.CallData
          d.TransferType w = (Outcome.panics, w1) ∨
        rh.depositHandler rh.domainID d.DestDomainID d.DepositNonce d.ResourceID d.CallData
          d.TransferType w = (Outcome.ok none, w1)))

/-- Handling the retry event `evt` in state `s`, with finalized block number `fin`, fails with
the error `e` and leaves the state `s1`. Either the fields of `evt` do not decode; or they
decode to a confirmed height and `GetBlockHash` fails, or `GetBlockEvents` fails, or, after the
block events `bpre` resolved the messages `ms`, the deposit event `bevt` fails. -/
def RetryEventHandler.RetryFails {F σ : Type} (env : Env F) (rh : RetryEventHandler F σ)
    (fin : Nat) (evt : Event F) (s : RetryState σ) (e : GoError) (s1 : RetryState σ) : Prop :=
  (env.decodeRetry evt.Fields = Outcome.err e ∧ s1 = s) ∨
  ∃ er, env.decodeRetry evt.Fields = Outcome.ok er ∧ er.DepositOnBlockHeight ≤ fin ∧
    ((∃ wa, rh.conn.GetBlockHash er.DepositOnBlockHeight s.world = (Outcome.err e, wa) ∧
        s1 = ⟨s.domainDeposits, wa,
          s.calls ++ [ConnCall.GetBlockHash er.DepositOnBlockHeight]⟩) ∨
      ∃ bh wa, rh.conn.GetBlockHash er.DepositOnBlockHeight s.world = (Outcome.ok bh, wa) ∧
        ((∃ wb, rh.conn.GetBlockEvents bh wa = (Outcome.err e, wb) ∧
            s1 = ⟨s.domainDeposits, wb,
              s.calls ++ [ConnCall.GetBlockHash er.DepositOnBlockHeight,
                ConnCall.GetBlockEvents bh]⟩) ∨
          ∃ bpre bevt bpost wb ms wc wd,
            rh.conn.GetBlockEvents bh wa = (Outcome.ok (bpre ++ bevt :: bpost), wb) ∧
            rh.blockMessages env bpre wb = some (ms, wc) ∧
            rh.DepositFails env bevt wc e wd ∧
            s1 = ⟨appendAll s.domainDeposits ms, wd,
              s.calls ++ [ConnCall.GetBlockHash er.DepositOnBlockHeight,
                ConnCall.GetBlockEvents bh]⟩))

/-- Handling the retry event `evt` in state `s`, with finalized block number `fin`, panics and
leaves the state `s1`. Either the decoder of `evt` panics; or the fields decode to a confirmed
height and `GetBlockHash` panics, or `GetBlockEvents` panics, or, after the block events `bpre`
resolved the messages `ms`, the deposit event `bevt` panics. -/
def RetryEventHandler.RetryPanics {F σ : Type} (env : Env F) (rh : RetryEventHandler F σ)
    (fin : Nat) (evt : Event F) (s : RetryState σ) (s1 : RetryState σ) : Prop :=
  (env.decodeRetry evt.Fields = Outcome.panics ∧ s1 = s) ∨
  ∃ er, env.decodeRetry evt.Fields = Outcome.ok er ∧ er.DepositOnBlockHeight ≤ fin ∧
    ((∃ wa, rh.conn.GetBlockHash er.DepositOnBlockHeight s.world = (Outcome.panics, wa) ∧
        s1 = ⟨s.domainDeposits, wa,
          s.calls ++ [ConnCall.GetBlockHash er.DepositOnBlockHeight]⟩) ∨
      ∃ bh wa, rh.conn.GetBlockHash er.DepositOnBlockHeight s.world = (Outcome.ok bh, wa) ∧
        ((∃ wb, rh.conn.GetBlockEvents bh wa = (Outcome.panics, wb) ∧
            s1 = ⟨s.domainDeposits, wb,
              s.calls ++ [ConnCall.GetBlockHash er.DepositOnBlockHeight,
                ConnCall.GetBlockEvents bh]⟩) ∨
          ∃ bpre bevt bpost wb ms wc wd,
            rh.conn.GetBlockEvents bh wa = (Outcome.ok (bpre ++ bevt :: bpost), wb) ∧
            rh.blockMessages env bpre wb = some (ms, wc) ∧
            rh.DepositPanics env bevt wc wd ∧
            s1 = ⟨appendAll s.domainDeposits ms, wd,
              s.calls ++ [ConnCall.GetBlockHash er.DepositOnBlockHeight,
                ConnCall.GetBlockEvents bh]⟩))

/-! ## Sample inputs -/

/-- A sample environment whose event fields are numbers. Deposit fields: `0` makes the decoder
panic, `1` makes it fail, any other `n` decodes to a deposit for domain `n % 3` with nonce `n`.
Retry fields: `0` panics, `1` fails, any other `n` decodes to a retry of block `n`. The map is
ranged over from its last entry to its first. -/
def sampleEnv : Env Nat :=
  ⟨"Deposit", "Retry",
    fun n =>
      if n = 0 then Outcome.panics else if n = 1 then Outcome.err "cannot decode deposit"
      else Outcome.ok ⟨n % 3, n, 0, [], 0⟩,
    fun n =>
      if n = 0 then Outcome.panics else if n = 1 then Outcome.err "cannot decode retry"
      else Outcome.ok ⟨n⟩,
    List.reverse⟩

/-- A sample deposit handler; its world counts the calls made. Nonce `5` is refused with an
error, nonce `6` panics, nonce `7` yields a nil message, any other deposit yields its
message. -/
def sampleHandleDeposit : HandleDepositFn Nat :=
  fun sourceID destID nonce _ _ _ w =>
    if nonce = 5 then (Outcome.err "refused", w + 1)
    else if nonce = 6 then (Outcome.panics, w + 1)
    else if nonce = 7 then (Outcome.ok none, w + 1)
    else (Outcome.ok (some ⟨sourceID, destID, nonce⟩), w + 1)

/-- A sample fungible-transfer handler of domain `1`. -/
def sampleFungible : FungibleTransferEventHandler Nat := ⟨1, sampleHandleDeposit⟩

/-- Sample events: good deposits around a decoder panic, a foreign event, a decoder error, a
handler error, a handler panic and a nil message. -/
def sampleDepositEvents : List (Event Nat) :=
  [⟨"Deposit", 3⟩, ⟨"Deposit", 0⟩, ⟨"Other", 4⟩, ⟨"Deposit", 1⟩, ⟨"Deposit", 5⟩,
    ⟨"Deposit", 4⟩, ⟨"Deposit", 6⟩, ⟨"Deposit", 7⟩, ⟨"Deposit", 9⟩]

/-- A sample chain connection; its world counts the calls made. The finalized head is block
`10` with hash `100`; block `n` has hash `1000 + n`, except block `8`, whose hash cannot be
fetched; the block with hash `h` holds a deposit with fields `h - 1000`, a foreign event and a
deposit with fields `h - 1000 + 3`. -/
def sampleConn : ChainConnection Nat Nat :=
  ⟨fun w => (Outcome.ok 100, w + 1),
    fun _ w => (Outcome.ok (some ⟨10⟩), w + 1),
    fun n w => if n = 8 then (Outcome.err "no hash", w + 1) else (Outcome.ok (1000 + n), w + 1),
    fun h w => (Outcome.ok [⟨"Deposit", h - 1000⟩, ⟨"Other", 0⟩, ⟨"Deposit", h - 1000 + 3⟩],
      w + 1)⟩

/-- A sample retry handler of domain `1`. -/
def sampleRetry : RetryEventHandler Nat Nat := ⟨sampleConn, 1, sampleHandleDeposit⟩

/-- The state of the sample retry handler when its loop starts. -/
def sampleStart : RetryState Nat := ⟨[], 2, [ConnCall.GetFinalizedHead, ConnCall.GetBlock 100]⟩

/-- The test case "five relayers bully coordination - leader not active" (lines 269-299). -/
def testCaseLeaderNotActive : BullyTestCase :=
  ⟨"five relayers bully coordination - leader not active", false,
    [⟨"R1", 0, 0⟩, ⟨"R2", 1, 0⟩, ⟨"R3", 2, 0⟩, ⟨"R4", 3, 0⟩, ⟨"R5", 4, 0⟩]⟩

/-- Sample host ids: host `i` has id `10 + i`. -/
def sampleHostID (i : Nat) : PeerID := 10 + i

/-- A sample session ordering: the peers in reverse. -/
def sampleSortPeers (peers : List PeerID) (_ : String) : List PeerID := peers.reverse

/-- The state of the sample retry handler after its loop processed a retry of block `9`. -/
def sampleAfterNine : RetryState Nat :=
  ⟨[(0, [⟨1, 0, 9⟩, ⟨1, 0, 12⟩])], 6,
    [ConnCall.GetFinalizedHead, ConnCall.GetBlock 100, ConnCall.GetBlockHash 9,
      ConnCall.GetBlockEvents 1009]⟩

/-! ## The map -/

theorem mapGet_mapSet_same (dd : DomainDeposits) (k : Nat) (v : List Message) :
    mapGet (mapSet dd k v) k = v := by
  induction dd with
  | nil => simp [mapSet, mapGet]
  | cons p rest ih =>
    obtain ⟨k1, v1⟩ := p
    by_cases h : k1 = k
    · simp [mapSet, mapGet, h]
    · simp [mapSet, mapGet, h, ih]

theorem mapGet_mapSet_other (dd : DomainDeposits) (k : Nat) (v : List Message) (k2 : Nat)
    (hk : k2 ≠ k) : mapGet (mapSet dd k v) k2 = mapGet dd k2 := by
  have hk2 : ¬ k = k2 := fun h => hk h.symm
  induction dd with
  | nil => simp [mapSet, mapGet, hk2]
  | cons p rest ih =>
    obtain ⟨k1, v1⟩ := p
    by_cases h : k1 = k
    · subst h
      simp only [mapSet, if_true, mapGet, if_neg hk2]
    · by_cases h2 : k1 = k2
      · simp only [mapSet, if_neg h, mapGet, if_pos h2]
      · simp only [mapSet, if_neg h, mapGet, if_neg h2, ih]

theorem keys_mapSet (dd : DomainDeposits) (k : Nat) (v : List Message) :
    (mapSet dd k v).map Prod.fst =
      if k ∈ dd.map Prod.fst then dd.map Prod.fst else dd.map Prod.fst ++ [k] := by
  induction dd with
  | nil => simp [mapSet]
  | cons p rest ih =>
    obtain ⟨k1, v1⟩ := p
    by_cases h : k1 = k
    · subst h
      simp [mapSet]
    · have h2 : ¬ k = k1 := fun e => h e.symm
      by_cases hm : k ∈ rest.map Prod.fst
      · rw [if_pos hm] at ih
        have hm2 : k ∈ ((k1, v1) :: rest).map Prod.fst := by
          rw [List.map_cons]; exact List.mem_cons_of_mem _ hm
        rw [if_pos hm2]
        simp only [mapSet, if_neg h, List.map_cons, ih]
      · rw [if_neg hm] at ih
        have hm2 : ¬ k ∈ ((k1, v1) :: rest).map Prod.fst := by
          rw [List.map_cons, List.mem_cons]
          rintro (e | e)
          · exact h2 e
          · exact hm e
        rw [if_neg hm2]
        simp only [mapSet, if_neg h, List.map_cons, ih, List.cons_append]

theorem mapGet_of_mem (dd : DomainDeposits) (hnd : (dd.map Prod.fst).Nodup) (k : Nat)
    (v : List Message) (h : (k, v) ∈ dd) : mapGet dd k = v := by
  induction dd with
  | nil => cases h
  | cons p rest ih =>
    obtain ⟨k1, v1⟩ := p
    rw [List.map_cons, List.nodup_cons] at hnd
    rcases List.mem_cons.mp h with e | e
    · cases e
      simp [mapGet]
    · have hne : ¬ k1 = k := by
        intro e2
        subst e2
        exact hnd.1 (List.mem_map.mpr ⟨(k1, v), e, rfl⟩)
      simp only [mapGet, if_neg hne]
      exact ih hnd.2 e

theorem groupsOf_nil : GroupsOf [] [] := by
  refine ⟨by simp, ?_, ?_⟩
  · intro k; simp [mapGet]
  · intro k; simp

theorem groupsOf_appendDeposit (dd : DomainDeposits) (R : List Message) (m : Message)
    (h : GroupsOf dd R) : GroupsOf (appendDeposit dd m) (R ++ [m]) := by
  obtain ⟨hnd, hget, hkeys⟩ := h
  unfold appendDeposit
  refine ⟨?_, ?_, ?_⟩
  · rw [keys_mapSet]
    by_cases hm : m.Destination ∈ dd.map Prod.fst
    · rw [if_pos hm]; exact hnd
    · rw [if_neg hm]
      rw [List.nodup_append]
      refine ⟨hnd, by simp, ?_⟩
      intro a ha hb
      rw [List.mem_singleton] at hb
      subst hb
      exact hm ha
  · intro k
    by_cases hk : k = m.Destination
    · subst hk
      rw [mapGet_mapSet_same, hget, List.filter_append]
      simp
    · rw [mapGet_mapSet_other _ _ _ _ hk, hget, List.filter_append]
      have : ¬ m.Destination = k := fun e => hk e.symm
      simp [this]
  · intro k
    rw [keys_mapSet]
    by_cases hm : m.Destination ∈ dd.map Prod.fst
    · rw [if_pos hm, hkeys]
      constructor
      · rintro ⟨x, hx, hxk⟩
        exact ⟨x, List.mem_append_left _ hx, hxk⟩
      · rintro ⟨x, hx, hxk⟩
        rcases List.mem_append.mp hx with hx | hx
        · exact ⟨x, hx, hxk⟩
        · rw [List.mem_singleton] at hx
          subst hx
          subst hxk
          exact (hkeys _).mp hm
    · rw [if_neg hm, List.mem_append, hkeys]
      constructor
      · rintro (⟨x, hx, hxk⟩ | hx)
        · exact ⟨x, List.mem_append_left _ hx, hxk⟩
        · rw [List.mem_singleton] at hx
          exact ⟨m, by simp, hx.symm⟩
      · rintro ⟨x, hx, hxk⟩
        rcases List.mem_append.mp hx with hx | hx
        · exact Or.inl ⟨x, hx, hxk⟩
        · rw [List.mem_singleton] at hx
          subst hx
          exact Or.inr (by simp [hxk])

/-- The batches sent for a map that groups `R`, whatever the order of the `range`. -/
theorem batches_of_groupsOf {F : Type} (env : Env F) (hr : env.RangeVisitsAll)
    (dd : DomainDeposits) (R : List Message) (h : GroupsOf dd R) :
    ∃ ds : List Nat, ds.Nodup ∧ (∀ d, d ∈ ds ↔ ∃ m ∈ R, m.Destination = d) ∧
      (env.rangeOrder dd).map Prod.snd =
        ds.map (fun d => R.filter (fun m => decide (m.Destination = d))) := by
  obtain ⟨hnd, hget, hkeys⟩ := h
  have hp := hr dd
  refine ⟨(env.rangeOrder dd).map Prod.fst, ?_, ?_, ?_⟩
  · exact ((hp.map Prod.fst).nodup_iff).mpr hnd
  · intro d
    rw [(hp.map Prod.fst).mem_iff]
    exact hkeys d
  · rw [List.map_map]
    apply List.map_congr_left
    intro p hp2
    obtain ⟨k, v⟩ := p
    have hmem : (k, v) ∈ dd := hp.mem_iff.mp hp2
    have := mapGet_of_mem dd hnd k v hmem
    simp only [Function.comp]
    rw [← hget, this]

/-! ## FungibleTransferEventHandler: the loop -/

/-- The loop never ends in a panic, and the map it leaves groups the resolved messages. -/
theorem fungible_eventLoop_groups {F σ : Type} (env : Env F)
    (eh : FungibleTransferEventHandler σ) (evts : List (Event F)) :
    ∀ (dd : DomainDeposits) (w : σ) (R : List Message), GroupsOf dd R →
      ∃ dd1 w1, eh.eventLoop env evts dd w = (Flow.returned (), dd1, w1) ∧
        GroupsOf dd1 (R ++ eh.resolved env evts w) := by
  induction evts with
  | nil =>
    intro dd w R h
    exact ⟨dd, w, rfl, by simpa [FungibleTransferEventHandler.resolved] using h⟩
  | cons evt rest ih =>
    intro dd w R h
    by_cases hn : evt.Name = env.DepositEvent
    · cases hdec : env.decodeDeposit evt.Fields with
      | panics =>
        simpa [FungibleTransferEventHandler.eventLoop, FungibleTransferEventHandler.resolved,
          FungibleTransferEventHandler.depositBody, recoverDeferred, hn, hdec] using ih dd w R h
      | err e =>
        simpa [FungibleTransferEventHandler.eventLoop, FungibleTransferEventHandler.resolved,
          FungibleTransferEventHandler.depositBody, recoverDeferred, hn, hdec] using ih dd w R h
      | ok d =>
        cases hh : eh.depositHandler eh.domainID d.DestDomainID d.DepositNonce d.ResourceID
            d.CallData d.TransferType w with
        | mk o w1 =>
          cases o with
          | panics =>
            simpa [FungibleTransferEventHandler.eventLoop, FungibleTransferEventHandler.resolved,
              FungibleTransferEventHandler.depositBody, recoverDeferred, hn, hdec, hh]
              using ih dd w1 R h
          | err e =>
            simpa [FungibleTransferEventHandler.eventLoop, FungibleTransferEventHandler.resolved,
              FungibleTransferEventHandler.depositBody, recoverDeferred, hn, hdec, hh]
              using ih dd w1 R h
          | ok om =>
            cases om with
            | none =>
              simpa [FungibleTransferEventHandler.eventLoop,
                FungibleTransferEventHandler.resolved,
                FungibleTransferEventHandler.depositBody, recoverDeferred, hn, hdec, hh]
                using ih dd w1 R h
            | some m =>
              have h2 := ih (appendDeposit dd m) w1 (R ++ [m]) (groupsOf_appendDeposit dd R m h)
              simpa [FungibleTransferEventHandler.eventLoop,
                FungibleTransferEventHandler.resolved,
                FungibleTransferEventHandler.depositBody, recoverDeferred, hn, hdec, hh]
                using h2
    · simpa [FungibleTransferEventHandler.eventLoop, FungibleTransferEventHandler.resolved, hn]
        using ih dd w R h

/-- Running the loop over `pre ++ post` is running it over `pre` and then over `post`, and the
resolved messages of `pre ++ post` are those of `pre` followed by those of `post`. -/
theorem fungible_eventLoop_append {F σ : Type} (env : Env F)
    (eh : FungibleTransferEventHandler σ) (pre post : List (Event F)) :
    ∀ (dd : DomainDeposits) (w : σ),
      ∃ dd1 w1, eh.eventLoop env pre dd w = (Flow.returned (), dd1, w1) ∧
        eh.eventLoop env (pre ++ post) dd w = eh.eventLoop env post dd1 w1 ∧
        eh.resolved env (pre ++ post) w = eh.resolved env pre w ++ eh.resolved env post w1 := by
  induction pre with
  | nil =>
    intro dd w
    exact ⟨dd, w, rfl, rfl, rfl⟩
  | cons evt rest ih =>
    intro dd w
    by_cases hn : evt.Name = env.DepositEvent
    · cases hdec : env.decodeDeposit evt.Fields with
      | panics =>
        simpa [FungibleTransferEventHandler.eventLoop, FungibleTransferEventHandler.resolved,
          FungibleTransferEventHandler.depositBody, recoverDeferred, hn, hdec] using ih dd w
      | err e =>
        simpa [FungibleTransferEventHandler.eventLoop, FungibleTransferEventHandler.resolved,
          FungibleTransferEventHandler.depositBody, recoverDeferred, hn, hdec] using ih dd w
      | ok d =>
        cases hh : eh.depositHandler eh.domainID d.DestDomainID d.DepositNonce d.ResourceID
            d.CallData d.TransferType w with
        | mk o w1 =>
          cases o with
          | panics =>
            simpa [FungibleTransferEventHandler.eventLoop, FungibleTransferEventHandler.resolved,
              FungibleTransferEventHandler.depositBody, recoverDeferred, hn, hdec, hh]
              using ih dd w1
          | err e =>
            simpa [FungibleTransferEventHandler.eventLoop, FungibleTransferEventHandler.resolved,
              FungibleTransferEventHandler.depositBody, recoverDeferred, hn, hdec, hh]
              using ih dd w1
          | ok om =>
            cases om with
            | none =>
              simpa [FungibleTransferEventHandler.eventLoop,
                FungibleTransferEventHandler.resolved,
                FungibleTransferEventHandler.depositBody, recoverDeferred, hn, hdec, hh]
                using ih dd w1
            | some m =>
              simpa [FungibleTransferEventHandler.eventLoop,
                FungibleTransferEventHandler.resolved,
                FungibleTransferEventHandler.depositBody, recoverDeferred, hn, hdec, hh]
                using ih (appendDeposit dd m) w1
    · simpa [FungibleTransferEventHandler.eventLoop, FungibleTransferEventHandler.resolved, hn]
        using ih dd w

/-- Events with another name change nothing: the loop over all events is the loop over the
deposit events alone. -/
theorem fungible_eventLoop_filter {F σ : Type} (env : Env F)
    (eh : FungibleTransferEventHandler σ) (evts : List (Event F)) :
    ∀ (dd : DomainDeposits) (w : σ),
      eh.eventLoop env (evts.filter (fun e => decide (e.Name = env.DepositEvent))) dd w =
        eh.eventLoop env evts dd w := by
  induction evts with
  | nil => intro dd w; rfl
  | cons evt rest ih =>
    intro dd w
    by_cases hn : evt.Name = env.DepositEvent
    · have hf : (evt :: rest).filter (fun e => decide (e.Name = env.DepositEvent)) =
          evt :: rest.filter (fun e => decide (e.Name = env.DepositEvent)) := by
        simp [List.filter_cons, hn]
      rw [hf]
      simp only [FungibleTransferEventHandler.eventLoop, if_pos hn]
      rcases hb : recoverDeferred () (eh.depositBody env evt dd w) with ⟨fl, dd1, w1⟩
      cases fl with
      | returned u => simp only [ih]
      | panicking => rfl
    · have hf : (evt :: rest).filter (fun e => decide (e.Name = env.DepositEvent)) =
          rest.filter (fun e => decide (e.Name = env.DepositEvent)) := by
        simp [List.filter_cons, hn]
      rw [hf]
      simp only [FungibleTransferEventHandler.eventLoop, if_neg hn]
      exact ih dd w

/-- The sends of `HandleEvents`, from the map the loop leaves. -/
theorem fungible_HandleEvents_eq {F σ : Type} (env : Env F)
    (eh : FungibleTransferEventHandler σ) (evts : List (Event F)) (w : σ) :
    ∃ dd1 w1, GroupsOf dd1 (eh.resolved env evts w) ∧
      eh.HandleEvents env evts w =
        (Flow.returned none, (env.rangeOrder dd1).map Prod.snd, w1) := by
  obtain ⟨dd1, w1, hl, hg⟩ := fungible_eventLoop_groups env eh evts [] w [] groupsOf_nil
  refine ⟨dd1, w1, by simpa using hg, ?_⟩
  simp only [FungibleTransferEventHandler.HandleEvents, hl]

/-! ## FungibleTransferEventHandler: the claims -/

theorem sampleEnv_rangeVisitsAll : sampleEnv.RangeVisitsAll :=
  fun dd => List.reverse_perm dd

/-- C5: `FungibleTransferEventHandler.HandleEvents` returns nil and does not panic, whatever the
events and whatever decoding and `HandleDeposit` do on each of them (return, fail or panic);
and every deposit event that decodes and whose `HandleDeposit` call, made in the world the
events before it left, returns a message, has that message in a batch handed to `msgChan`,
whether failing events come before or after it. -/
theorem fungible_HandleEvents_survives_bad_deposits {F σ : Type} (env : Env F)
    (hr : env.RangeVisitsAll) (eh : FungibleTransferEventHandler σ) (evts : List (Event F))
    (w : σ) :
    (eh.HandleEvents env evts w).1 = Flow.returned none ∧
    ∀ (pre post : List (Event F)) (evt : Event F) (fl : Flow Unit) (dd1 : DomainDeposits)
      (w1 w2 : σ) (d : Deposit) (m : Message),
      evts = pre ++ evt :: post →
      evt.Name = env.DepositEvent →
      eh.eventLoop env pre [] w = (fl, dd1, w1) →
      env.decodeDeposit evt.Fields = Outcome.ok d →
      eh.depositHandler eh.domainID d.DestDomainID d.DepositNonce d.ResourceID d.CallData
        d.TransferType w1 = (Outcome.ok (some m), w2) →
      ∃ b ∈ (eh.HandleEvents env evts w).2.1, m ∈ b := by
  obtain ⟨ddf, wf, hg, he⟩ := fungible_HandleEvents_eq env eh evts w
  refine ⟨by rw [he], ?_⟩
  intro pre post evt fl dd1 w1 w2 d m hsplit hn hpre hdec hh
  obtain ⟨dd2, w3, hl, _, hres⟩ := fungible_eventLoop_append env eh pre (evt :: post) [] w
  rw [hpre] at hl
  have hw : w1 = w3 := by
    have := congrArg (fun t => t.2.2) hl
    simpa using this
  subst hw
  have hmem : m ∈ eh.resolved env evts w := by
    rw [hsplit, hres]
    apply List.mem_append_right
    simp [FungibleTransferEventHandler.resolved, hn, hdec, hh]
  obtain ⟨hnd, hget, hkeys⟩ := hg
  have hk : m.Destination ∈ ddf.map Prod.fst := (hkeys _).mpr ⟨m, hmem, rfl⟩
  obtain ⟨⟨k, v⟩, hp, hpk⟩ := List.mem_map.mp hk
  simp only at hpk
  subst hpk
  have hv : v = (eh.resolved env evts w).filter (fun x => decide (x.Destination = m.Destination)) := by
    rw [← hget, mapGet_of_mem ddf hnd _ _ hp]
  rw [he]
  refine ⟨v, ?_, ?_⟩
  · exact List.mem_map.mpr ⟨(m.Destination, v), (hr ddf).mem_iff.mpr hp, rfl⟩
  · rw [hv, List.mem_filter]
    exact ⟨hmem, by simp⟩

/-- The theorem of C5 on the sample events: the call returns nil, and the message of the
deposit for domain `1` with nonce `4`, which follows a decoder panic, a decoder error and a
handler error and precedes a handler panic, is delivered. -/
theorem fungible_HandleEvents_survives_bad_deposits_witness :
    sampleEnv.RangeVisitsAll ∧
    (sampleFungible.HandleEvents sampleEnv sampleDepositEvents 0).1 = Flow.returned none ∧
    ∃ b ∈ (sampleFungible.HandleEvents sampleEnv sampleDepositEvents 0).2.1,
      (⟨1, 1, 4⟩ : Message) ∈ b :=
  ⟨sampleEnv_rangeVisitsAll,
    (fungible_HandleEvents_survives_bad_deposits sampleEnv sampleEnv_rangeVisitsAll
      sampleFungible sampleDepositEvents 0).1,
    (fungible_HandleEvents_survives_bad_deposits sampleEnv sampleEnv_rangeVisitsAll
      sampleFungible sampleDepositEvents 0).2
      [⟨"Deposit", 3⟩, ⟨"Deposit", 0⟩, ⟨"Other", 4⟩, ⟨"Deposit", 1⟩, ⟨"Deposit", 5⟩]
      [⟨"Deposit", 6⟩, ⟨"Deposit", 7⟩, ⟨"Deposit", 9⟩] ⟨"Deposit", 4⟩
      (Flow.returned ()) [(0, [⟨1, 0, 3⟩])] 2 3 ⟨1, 4, 0, [], 0⟩ ⟨1, 1, 4⟩
      (by decide) (by decide) (by decide) (by decide) (by decide)⟩

/-- C8: the batches handed to `msgChan` by `FungibleTransferEventHandler.HandleEvents` split
the resolved deposit messages by destination. There is a list `ds` of pairwise distinct
destinations, exactly those of the resolved messages, such that the batches are, one per
destination of `ds`, the resolved messages with that destination in the order of their events;
so no batch is empty, a batch has one destination, and every resolved message is in exactly one
batch. Events with another name contribute nothing: dropping them changes neither the result
nor the batches nor the world. -/
theorem fungible_HandleEvents_groups_by_destination {F σ : Type} (env : Env F)
    (hr : env.RangeVisitsAll) (eh : FungibleTransferEventHandler σ) (evts : List (Event F))
    (w : σ) :
    (∃ ds : List Nat, ds.Nodup ∧
      (∀ d, d ∈ ds ↔ ∃ m ∈ eh.resolved env evts w, m.Destination = d) ∧
      (eh.HandleEvents env evts w).2.1 =
        ds.map (fun d => (eh.resolved env evts w).filter (fun m => decide (m.Destination = d))) ∧
      (∀ b ∈ (eh.HandleEvents env evts w).2.1, b ≠ [])) ∧
    eh.HandleEvents env (evts.filter (fun e => decide (e.Name = env.DepositEvent))) w =
      eh.HandleEvents env evts w := by
  constructor
  · obtain ⟨ddf, wf, hg, he⟩ := fungible_HandleEvents_eq env eh evts w
    obtain ⟨ds, hnd, hmem, hmap⟩ := batches_of_groupsOf env hr ddf _ hg
    refine ⟨ds, hnd, hmem, ?_, ?_⟩
    · rw [he]; exact hmap
    · rw [he]
      simp only
      rw [hmap]
      intro b hb
      obtain ⟨d, hd, rfl⟩ := List.mem_map.mp hb
      obtain ⟨m, hm, hmd⟩ := (hmem d).mp hd
      intro hnil
      have : m ∈ (eh.resolved env evts w).filter (fun m => decide (m.Destination = d)) := by
        rw [List.mem_filter]
        exact ⟨hm, by simp [hmd]⟩
      rw [hnil] at this
      cases this
  · simp only [FungibleTransferEventHandler.HandleEvents, fungible_eventLoop_filter]

/-- The theorem of C8 on the sample events: the three resolved messages leave in two batches,
domain `1` and domain `0`. -/
theorem fungible_HandleEvents_groups_by_destination_witness :
    sampleEnv.RangeVisitsAll ∧
    (sampleFungible.HandleEvents sampleEnv sampleDepositEvents 0).2.1 =
      [[⟨1, 1, 4⟩], [⟨1, 0, 3⟩, ⟨1, 0, 9⟩]] ∧
    ∃ ds : List Nat, ds.Nodup ∧
      (∀ d, d ∈ ds ↔ ∃ m ∈ sampleFungible.resolved sampleEnv sampleDepositEvents 0,
        m.Destination = d) ∧
      (sampleFungible.HandleEvents sampleEnv sampleDepositEvents 0).2.1 =
        ds.map (fun d => (sampleFungible.resolved sampleEnv sampleDepositEvents 0).filter
          (fun m => decide (m.Destination = d))) ∧
      (∀ b ∈ (sampleFungible.HandleEvents sampleEnv sampleDepositEvents 0).2.1, b ≠ []) :=
  ⟨sampleEnv_rangeVisitsAll, by decide,
    (fungible_HandleEvents_groups_by_destination sampleEnv sampleEnv_rangeVisitsAll
      sampleFungible sampleDepositEvents 0).1⟩

/-! ## RetryEventHandler: the loops -/

theorem mapGrows_refl (dd : DomainDeposits) : MapGrows dd dd :=
  fun _ => ⟨[], by simp⟩

theorem mapGrows_trans {a b c : DomainDeposits} (h1 : MapGrows a b) (h2 : MapGrows b c) :
    MapGrows a c := by
  intro k
  obtain ⟨t1, e1⟩ := h1 k
  obtain ⟨t2, e2⟩ := h2 k
  exact ⟨t1 ++ t2, by rw [e2, e1, List.append_assoc]⟩

theorem mapGrows_appendDeposit (dd : DomainDeposits) (m : Message) :
    MapGrows dd (appendDeposit dd m) := by
  intro k
  unfold appendDeposit
  by_cases hk : k = m.Destination
  · subst hk
    exact ⟨[m], by rw [mapGet_mapSet_same]⟩
  · exact ⟨[], by rw [mapGet_mapSet_other _ _ _ _ hk, List.append_nil]⟩

theorem mapGrows_mem {dd dd1 : DomainDeposits} (h : MapGrows dd dd1) (k : Nat) (m : Message)
    (hm : m ∈ mapGet dd k) : m ∈ mapGet dd1 k := by
  obtain ⟨t, e⟩ := h k
  rw [e]
  exact List.mem_append_left _ hm

/-- A message read from the map under some key sits in an entry of the map. -/
theorem mem_entry_of_mem_mapGet (dd : DomainDeposits) (k : Nat) (m : Message)
    (hm : m ∈ mapGet dd k) : ∃ p ∈ dd, m ∈ p.2 := by
  induction dd with
  | nil => simp [mapGet] at hm
  | cons p rest ih =>
    obtain ⟨k1, v1⟩ := p
    by_cases h : k1 = k
    · simp only [mapGet, if_pos h] at hm
      exact ⟨(k1, v1), by simp, hm⟩
    · simp only [mapGet, if_neg h] at hm
      obtain ⟨q, hq, hmq⟩ := ih hm
      exact ⟨q, List.mem_cons_of_mem _ hq, hmq⟩

/-- The block loop makes no connection call and takes nothing out of the map. -/
theorem retry_blockEventLoop_keeps {F σ : Type} (env : Env F) (rh : RetryEventHandler F σ)
    (bEvts : List (Event F)) :
    ∀ (s : RetryState σ),
      (rh.blockEventLoop env bEvts s).2.calls = s.calls ∧
      MapGrows s.domainDeposits (rh.blockEventLoop env bEvts s).2.domainDeposits := by
  induction bEvts with
  | nil => intro s; exact ⟨rfl, mapGrows_refl _⟩
  | cons event rest ih =>
    intro s
    by_cases hn : event.Name = env.DepositEvent
    · cases hdec : env.decodeDeposit event.Fields with
      | panics =>
        simp only [RetryEventHandler.blockEventLoop, if_pos hn, hdec]
        exact ⟨trivial, mapGrows_refl _⟩
      | err e =>
        simp only [RetryEventHandler.blockEventLoop, if_pos hn, hdec]
        exact ⟨trivial, mapGrows_refl _⟩
      | ok d =>
        cases hh : rh.depositHandler rh.domainID d.DestDomainID d.DepositNonce d.ResourceID
            d.CallData d.TransferType s.world with
        | mk o w1 =>
          cases o with
          | panics =>
            simp only [RetryEventHandler.blockEventLoop, if_pos hn, hdec, hh]
            exact ⟨trivial, mapGrows_refl _⟩
          | err e =>
            simp only [RetryEventHandler.blockEventLoop, if_pos hn, hdec, hh]
            exact ⟨trivial, mapGrows_refl _⟩
          | ok om =>
            cases om with
            | none =>
              simp only [RetryEventHandler.blockEventLoop, if_pos hn, hdec, hh]
              exact ⟨trivial, mapGrows_refl _⟩
            | some m =>
              simp only [RetryEventHandler.blockEventLoop, if_pos hn, hdec, hh]
              obtain ⟨h1, h2⟩ := ih ⟨appendDeposit s.domainDeposits m, w1, s.calls⟩
              exact ⟨h1, mapGrows_trans (mapGrows_appendDeposit _ m) h2⟩
    · simp only [RetryEventHandler.blockEventLoop, if_neg hn]
      exact ih s

/-- Looking up a block starts with the call `GetBlockHash blockNumber` and takes nothing out
of the map. -/
theorem retry_resolveBlock_calls {F σ : Type} (env : Env F) (rh : RetryEventHandler F σ)
    (blockNumber : Nat) (s : RetryState σ) :
    (∃ tail, (rh.resolveBlock env blockNumber s).2.calls =
      s.calls ++ ConnCall.GetBlockHash blockNumber :: tail) ∧
    MapGrows s.domainDeposits (rh.resolveBlock env blockNumber s).2.domainDeposits := by
  cases h1 : rh.conn.GetBlockHash blockNumber s.world with
  | mk o w1 =>
    cases o with
    | panics =>
      simp only [RetryEventHandler.resolveBlock, h1]
      exact ⟨⟨[], rfl⟩, mapGrows_refl _⟩
    | err e =>
      simp only [RetryEventHandler.resolveBlock, h1]
      exact ⟨⟨[], rfl⟩, mapGrows_refl _⟩
    | ok bh =>
      cases h2 : rh.conn.GetBlockEvents bh w1 with
      | mk o2 w2 =>
        cases o2 with
        | panics =>
          simp only [RetryEventHandler.resolveBlock, h1, h2]
          exact ⟨⟨[ConnCall.GetBlockEvents bh], rfl⟩, mapGrows_refl _⟩
        | err e =>
          simp only [RetryEventHandler.resolveBlock, h1, h2]
          exact ⟨⟨[ConnCall.GetBlockEvents bh], rfl⟩, mapGrows_refl _⟩
        | ok bEvts =>
          simp only [RetryEventHandler.resolveBlock, h1, h2]
          obtain ⟨hc, hg⟩ := retry_blockEventLoop_keeps env rh bEvts
            ⟨s.domainDeposits, w2,
              s.calls ++ [ConnCall.GetBlockHash blockNumber, ConnCall.GetBlockEvents bh]⟩
          exact ⟨⟨[ConnCall.GetBlockEvents bh], by rw [hc]⟩, hg⟩

theorem recoverDeferred_snd {α S : Type} (zero : α) (r : Flow α × S) :
    (recoverDeferred zero r).2 = r.2 := by
  obtain ⟨fl, s⟩ := r
  cases fl <;> rfl

/-- Handling one retry event takes nothing out of the map. -/
theorem retry_retryEvent_grows {F σ : Type} (env : Env F) (rh : RetryEventHandler F σ)
    (fin : Nat) (evt : Event F) (s : RetryState σ) :
    MapGrows s.domainDeposits (rh.retryBody env fin evt s).2.domainDeposits ∧
    MapGrows s.domainDeposits (rh.retryEvent env fin evt s).2.domainDeposits := by
  have hb : MapGrows s.domainDeposits (rh.retryBody env fin evt s).2.domainDeposits := by
    unfold RetryEventHandler.retryBody
    cases hdec : env.decodeRetry evt.Fields with
    | panics => exact mapGrows_refl _
    | err e => exact mapGrows_refl _
    | ok er =>
      by_cases hlt : fin < er.DepositOnBlockHeight
      · simp only [if_pos hlt]; exact mapGrows_refl _
      · simp only [if_neg hlt]
        exact (retry_resolveBlock_calls env rh _ s).2
  refine ⟨hb, ?_⟩
  unfold RetryEventHandler.retryEvent
  rw [recoverDeferred_snd]
  exact hb

/-- The event loop takes nothing out of the map. -/
theorem retry_eventLoop_grows {F σ : Type} (env : Env F) (rh : RetryEventHandler F σ)
    (fin : Nat) (evts : List (Event F)) :
    ∀ (s : RetryState σ),
      MapGrows s.domainDeposits (rh.eventLoop env fin evts s).2.domainDeposits := by
  induction evts with
  | nil => intro s; exact mapGrows_refl _
  | cons evt rest ih =>
    intro s
    by_cases hn : evt.Name = env.RetryEvent
    · have hg := (retry_retryEvent_grows env rh fin evt s).2
      simp only [RetryEventHandler.eventLoop, if_pos hn]
      rcases hb : rh.retryEvent env fin evt s with ⟨fl, s1⟩
      rw [hb] at hg
      cases fl with
      | panicking => exact hg
      | returned oe =>
        cases oe with
        | none => exact mapGrows_trans hg (ih s1)
        | some e => exact hg
    · simp only [RetryEventHandler.eventLoop, if_neg hn]
      exact ih s

/-- When the loop over `pre` ends without error, the loop over `pre ++ post` goes on with
`post` from the state `pre` left. -/
theorem retry_eventLoop_append {F σ : Type} (env : Env F) (rh : RetryEventHandler F σ)
    (fin : Nat) (pre post : List (Event F)) :
    ∀ (s s1 : RetryState σ), rh.eventLoop env fin pre s = (Flow.returned none, s1) →
      rh.eventLoop env fin (pre ++ post) s = rh.eventLoop env fin post s1 := by
  induction pre with
  | nil =>
    intro s s1 h
    simp only [RetryEventHandler.eventLoop, Prod.mk.injEq, true_and] at h
    subst h
    rfl
  | cons evt rest ih =>
    intro s s1 h
    by_cases hn : evt.Name = env.RetryEvent
    · simp only [RetryEventHandler.eventLoop, if_pos hn, List.cons_append] at h ⊢
      rcases hb : rh.retryEvent env fin evt s with ⟨fl, s2⟩
      rw [hb] at h
      cases fl with
      | panicking => simp at h
      | returned oe =>
        cases oe with
        | none => exact ih s2 s1 h
        | some e => simp at h
    · simp only [RetryEventHandler.eventLoop, if_neg hn, List.cons_append] at h ⊢
      exact ih s s1 h

/-! ## RetryEventHandler: one block, from what the collaborators answer -/

theorem appendAll_grows (ms : List Message) :
    ∀ dd : DomainDeposits, MapGrows dd (appendAll dd ms) := by
  induction ms with
  | nil => intro dd; exact mapGrows_refl dd
  | cons m rest ih =>
    intro dd
    exact mapGrows_trans (mapGrows_appendDeposit dd m) (ih (appendDeposit dd m))

/-- Every appended message is in the map, under its destination. -/
theorem mem_mapGet_appendAll (ms : List Message) :
    ∀ (dd : DomainDeposits) (m : Message), m ∈ ms →
      m ∈ mapGet (appendAll dd ms) m.Destination := by
  induction ms with
  | nil => intro dd m hm; cases hm
  | cons x rest ih =>
    intro dd m hm
    rcases List.mem_cons.mp hm with e | e
    · subst e
      apply mapGrows_mem (appendAll_grows rest (appendDeposit dd m))
      unfold appendDeposit
      rw [mapGet_mapSet_same]
      simp
    · exact ih (appendDeposit dd x) m e

/-- While the deposit events of a block succeed, the block loop appends their messages and
goes on. -/
theorem retry_blockEventLoop_of_blockMessages {F σ : Type} (env : Env F)
    (rh : RetryEventHandler F σ) (bpre : List (Event F)) :
    ∀ (w w1 : σ) (ms : List Message), rh.blockMessages env bpre w = some (ms, w1) →
      ∀ (rest : List (Event F)) (dd : DomainDeposits) (c : List ConnCall),
        rh.blockEventLoop env (bpre ++ rest) ⟨dd, w, c⟩ =
          rh.blockEventLoop env rest ⟨appendAll dd ms, w1, c⟩ := by
  induction bpre with
  | nil =>
    intro w w1 ms h rest dd c
    simp only [RetryEventHandler.blockMessages, Option.some.injEq, Prod.mk.injEq] at h
    obtain ⟨h1, h2⟩ := h
    subst h1
    subst h2
    rfl
  | cons event tl ih =>
    intro w w1 ms h rest dd c
    by_cases hn : event.Name = env.DepositEvent
    · simp only [RetryEventHandler.blockMessages, if_pos hn] at h
      cases hdec : env.decodeDeposit event.Fields with
      | panics => rw [hdec] at h; simp at h
      | err e => rw [hdec] at h; simp at h
      | ok d =>
        rw [hdec] at h
        simp only at h
        rcases hh : rh.depositHandler rh.domainID d.DestDomainID d.DepositNonce d.ResourceID
            d.CallData d.TransferType w with ⟨o, w2⟩
        rw [hh] at h
        cases o with
        | panics => simp at h
        | err e => simp at h
        | ok om =>
          cases om with
          | none => simp at h
          | some m =>
            simp only at h
            cases hrec : rh.blockMessages env tl w2 with
            | none => rw [hrec] at h; simp at h
            | some p =>
              obtain ⟨ms1, w3⟩ := p
              rw [hrec] at h
              simp only [Option.some.injEq, Prod.mk.injEq] at h
              obtain ⟨h1, h2⟩ := h
              subst h1
              subst h2
              have := ih w2 w3 ms1 hrec rest (appendDeposit dd m) c
              simp only [List.cons_append, RetryEventHandler.blockEventLoop, if_pos hn, hdec,
                hh]
              exact this
    · simp only [RetryEventHandler.blockMessages, if_neg hn] at h
      simp only [List.cons_append, RetryEventHandler.blockEventLoop, if_neg hn]
      exact ih w w1 ms h rest dd c

/-- A failing deposit event ends the block loop with its error. -/
theorem retry_blockEventLoop_of_depositFails {F σ : Type} (env : Env F)
    (rh : RetryEventHandler F σ) (bevt : Event F) (rest : List (Event F)) (dd : DomainDeposits)
    (w w1 : σ) (c : List ConnCall) (e : GoError) (h : rh.DepositFails env bevt w e w1) :
    rh.blockEventLoop env (bevt :: rest) ⟨dd, w, c⟩ = (Flow.returned (some e), ⟨dd, w1, c⟩) := by
  obtain ⟨hn, h⟩ := h
  rcases h with ⟨hdec, hw⟩ | ⟨d, hdec, hh⟩
  · subst hw
    simp only [RetryEventHandler.blockEventLoop, if_pos hn, hdec]
  · simp only [RetryEventHandler.blockEventLoop, if_pos hn, hdec, hh]

/-- A panicking deposit event ends the block loop in a panic. -/
theorem retry_blockEventLoop_of_depositPanics {F σ : Type} (env : Env F)
    (rh : RetryEventHandler F σ) (bevt : Event F) (rest : List (Event F)) (dd : DomainDeposits)
    (w w1 : σ) (c : List ConnCall) (h : rh.DepositPanics env bevt w w1) :
    rh.blockEventLoop env (bevt :: rest) ⟨dd, w, c⟩ = (Flow.panicking, ⟨dd, w1, c⟩) := by
  obtain ⟨hn, h⟩ := h
  rcases h with ⟨hdec, hw⟩ | ⟨d, hdec, hh | hh⟩
  · subst hw
    simp only [RetryEventHandler.blockEventLoop, if_pos hn, hdec]
  · simp only [RetryEventHandler.blockEventLoop, if_pos hn, hdec, hh]
  · simp only [RetryEventHandler.blockEventLoop, if_pos hn, hdec, hh]

/-- The low 64 bits of a confirmed height are the height. -/
theorem confirmed_height_fits (number height : Nat) (h : height ≤ number % 2 ^ 32) :
    height % 2 ^ 64 = height := by
  have hb : number % 2 ^ 32 < 2 ^ 32 := Nat.mod_lt _ (by norm_num)
  exact Nat.mod_eq_of_lt (by omega)

/-- A retry event that fails, in the sense of `RetryFails`, makes the function literal return
its error. -/
theorem retry_retryBody_of_retryFails {F σ : Type} (env : Env F) (rh : RetryEventHandler F σ)
    (number : Nat) (evt : Event F) (s s1 : RetryState σ) (e : GoError)
    (h : rh.RetryFails env (number % 2 ^ 32) evt s e s1) :
    rh.retryBody env (number % 2 ^ 32) evt s = (Flow.returned (some e), s1) := by
  rcases h with ⟨hdec, hs⟩ | ⟨er, hdec, hle, h⟩
  · subst hs
    simp only [RetryEventHandler.retryBody, hdec]
  · have hlt : ¬ number % 2 ^ 32 < er.DepositOnBlockHeight := Nat.not_lt.mpr hle
    have hfit := confirmed_height_fits number _ hle
    simp only [RetryEventHandler.retryBody, hdec, if_neg hlt, hfit]
    rcases h with ⟨wa, h1, hs⟩ | ⟨bh, wa, h1, h⟩
    · subst hs
      simp only [RetryEventHandler.resolveBlock, h1]
    · rcases h with ⟨wb, h2, hs⟩ | ⟨bpre, bevt, bpost, wb, ms, wc, wd, h2, hms, hf, hs⟩
      · subst hs
        simp only [RetryEventHandler.resolveBlock, h1, h2]
      · subst hs
        simp only [RetryEventHandler.resolveBlock, h1, h2]
        rw [retry_blockEventLoop_of_blockMessages env rh bpre wb wc ms hms]
        exact retry_blockEventLoop_of_depositFails env rh bevt bpost _ wc wd _ e hf

/-- A retry event that panics, in the sense of `RetryPanics`, makes the body of the function
literal panic. -/
theorem retry_retryBody_of_retryPanics {F σ : Type} (env : Env F) (rh : RetryEventHandler F σ)
    (number : Nat) (evt : Event F) (s s1 : RetryState σ)
    (h : rh.RetryPanics env (number % 2 ^ 32) evt s s1) :
    rh.retryBody env (number % 2 ^ 32) evt s = (Flow.panicking, s1) := by
  rcases h with ⟨hdec, hs⟩ | ⟨er, hdec, hle, h⟩
  · subst hs
    simp only [RetryEventHandler.retryBody, hdec]
  · have hlt : ¬ number % 2 ^ 32 < er.DepositOnBlockHeight := Nat.not_lt.mpr hle
    have hfit := confirmed_height_fits number _ hle
    simp only [RetryEventHandler.retryBody, hdec, if_neg hlt, hfit]
    rcases h with ⟨wa, h1, hs⟩ | ⟨bh, wa, h1, h⟩
    · subst hs
      simp only [RetryEventHandler.resolveBlock, h1]
    · rcases h with ⟨wb, h2, hs⟩ | ⟨bpre, bevt, bpost, wb, ms, wc, wd, h2, hms, hf, hs⟩
      · subst hs
        simp only [RetryEventHandler.resolveBlock, h1, h2]
      · subst hs
        simp only [RetryEventHandler.resolveBlock, h1, h2]
        rw [retry_blockEventLoop_of_blockMessages env rh bpre wb wc ms hms]
        exact retry_blockEventLoop_of_depositPanics env rh bevt bpost _ wc wd _ hf

/-- A confirmed retry event whose block is fetched and whose deposit events all succeed makes
the function literal return nil with the block's messages appended to the map. -/
theorem retry_retryBody_of_blockMessages {F σ : Type} (env : Env F) (rh : RetryEventHandler F σ)
    (number : Nat) (evt : Event F) (s : RetryState σ) (er : Retry) (bh : Hash) (wa wb wc : σ)
    (bEvts : List (Event F)) (ms : List Message)
    (hdec : env.decodeRetry evt.Fields = Outcome.ok er)
    (hle : er.DepositOnBlockHeight ≤ number % 2 ^ 32)
    (h1 : rh.conn.GetBlockHash er.DepositOnBlockHeight s.world = (Outcome.ok bh, wa))
    (h2 : rh.conn.GetBlockEvents bh wa = (Outcome.ok bEvts, wb))
    (hms : rh.blockMessages env bEvts wb = some (ms, wc)) :
    rh.retryBody env (number % 2 ^ 32) evt s =
      (Flow.returned none, ⟨appendAll s.domainDeposits ms, wc,
        s.calls ++ [ConnCall.GetBlockHash er.DepositOnBlockHeight,
          ConnCall.GetBlockEvents bh]⟩) := by
  have hlt : ¬ number % 2 ^ 32 < er.DepositOnBlockHeight := Nat.not_lt.mpr hle
  have hfit := confirmed_height_fits number _ hle
  simp only [RetryEventHandler.retryBody, hdec, if_neg hlt, hfit,
    RetryEventHandler.resolveBlock, h1, h2]
  have := retry_blockEventLoop_of_blockMessages env rh bEvts wb wc ms hms []
    s.domainDeposits
    (s.calls ++ [ConnCall.GetBlockHash er.DepositOnBlockHeight, ConnCall.GetBlockEvents bh])
  rw [List.append_nil] at this
  rw [this]
  rfl

/-! ## RetryEventHandler: the claims -/

/-- C9: `RetryEventHandler.HandleEvents` sends all or nothing. When it returns an error (from
`GetFinalizedHead`, `GetBlock`, field decoding, `GetBlockHash`, `GetBlockEvents` or
`HandleDeposit`) no batch has been sent on `msgChan`, whatever earlier retry events of the call
resolved; the same holds when it panics; a batch is sent only by a call that returns nil. -/
theorem retry_HandleEvents_sends_all_or_nothing {F σ : Type} (env : Env F)
    (rh : RetryEventHandler F σ) (evts : List (Event F)) (w : σ) :
    (∀ e, (rh.HandleEvents env evts w).1 = Flow.returned (some e) →
      (rh.HandleEvents env evts w).2.1 = []) ∧
    ((rh.HandleEvents env evts w).1 = Flow.panicking →
      (rh.HandleEvents env evts w).2.1 = []) ∧
    ((rh.HandleEvents env evts w).2.1 ≠ [] →
      (rh.HandleEvents env evts w).1 = Flow.returned none) := by
  unfold RetryEventHandler.HandleEvents
  rcases h1 : rh.conn.GetFinalizedHead w with ⟨o1, w1⟩
  cases o1 with
  | panics => simp
  | err e => simp
  | ok hash =>
    rcases h2 : rh.conn.GetBlock hash w1 with ⟨o2, w2⟩
    cases o2 with
    | panics => simp [h2]
    | err e => simp [h2]
    | ok ob =>
      cases ob with
      | none => simp [h2]
      | some finalized =>
        rcases h3 : rh.eventLoop env (finalized.Number % 2 ^ 32) evts
          ⟨[], w2, [ConnCall.GetFinalizedHead, ConnCall.GetBlock hash]⟩ with ⟨fl, s⟩
        have h3b : rh.eventLoop env (finalized.Number % 4294967296) evts
          ⟨[], w2, [ConnCall.GetFinalizedHead, ConnCall.GetBlock hash]⟩ = (fl, s) := h3
        cases fl with
        | panicking => simp [h2, h3b]
        | returned oe =>
          cases oe with
          | none => simp [h2, h3b]
          | some e => simp [h2, h3b]

/-- The theorem of C9 on sample events: the retry of block `9` resolves two messages, the retry
of block `2` then fails in `HandleDeposit`; the call returns that error with the messages still
in its map and nothing sent. -/
theorem retry_HandleEvents_sends_all_or_nothing_witness :
    (sampleRetry.HandleEvents sampleEnv [⟨"Retry", 9⟩, ⟨"Retry", 2⟩] 0).1 =
      Flow.returned (some "refused") ∧
    (sampleRetry.HandleEvents sampleEnv [⟨"Retry", 9⟩, ⟨"Retry", 2⟩] 0).2.2.domainDeposits =
      [(0, [⟨1, 0, 9⟩, ⟨1, 0, 12⟩]), (2, [⟨1, 2, 2⟩])] ∧
    (sampleRetry.HandleEvents sampleEnv [⟨"Retry", 9⟩, ⟨"Retry", 2⟩] 0).2.1 = [] :=
  ⟨by decide, by decide,
    (retry_HandleEvents_sends_all_or_nothing sampleEnv sampleRetry
      [⟨"Retry", 9⟩, ⟨"Retry", 2⟩] 0).1 "refused" (by decide)⟩

/-- C6, as stated, fails: on the sample events the retry of block `9` resolves two messages,
the next retry event has fields that do not decode, and a retry of block `10` follows. The call
returns the decoding error, sends nothing, and never looks up block `10`: the malformed event
ended the loop and the messages of the other retry events are not delivered. -/
theorem retry_HandleEvents_malformed_event_stops_loop :
    sampleRetry.HandleEvents sampleEnv [⟨"Retry", 9⟩, ⟨"Retry", 1⟩, ⟨"Retry", 10⟩] 0 =
      (Flow.returned (some "cannot decode retry"), [],
        ⟨[(0, [⟨1, 0, 9⟩, ⟨1, 0, 12⟩])], 6,
          [ConnCall.GetFinalizedHead, ConnCall.GetBlock 100, ConnCall.GetBlockHash 9,
            ConnCall.GetBlockEvents 1009]⟩) := by
  decide

/-- The sends of a call whose loop is reached and ends without error. -/
theorem retry_HandleEvents_of_loop {F σ : Type} (env : Env F) (rh : RetryEventHandler F σ)
    (evts : List (Event F)) (w w1 w2 : σ) (hash : Hash) (finalized : SignedBlock)
    (fl : Flow (Option GoError)) (s : RetryState σ)
    (hfh : rh.conn.GetFinalizedHead w = (Outcome.ok hash, w1))
    (hgb : rh.conn.GetBlock hash w1 = (Outcome.ok (some finalized), w2))
    (hl : rh.eventLoop env (finalized.Number % 2 ^ 32) evts
      ⟨[], w2, [ConnCall.GetFinalizedHead, ConnCall.GetBlock hash]⟩ = (fl, s)) :
    rh.HandleEvents env evts w =
      match fl with
      | Flow.returned none =>
        (Flow.returned none, (env.rangeOrder s.domainDeposits).map Prod.snd, s)
      | Flow.returned (some e) => (Flow.returned (some e), [], s)
      | Flow.panicking => (Flow.panicking, [], s) := by
  simp only [RetryEventHandler.HandleEvents, hfh, hgb, hl]
  cases fl with
  | panicking => rfl
  | returned oe => cases oe <;> rfl

/-- Every message stored in the map is in one of the batches a `range` over the map sends. -/
theorem retry_batches_hold_map {F : Type} (env : Env F) (hr : env.RangeVisitsAll)
    (dd : DomainDeposits) (k : Nat) (m : Message) (hm : m ∈ mapGet dd k) :
    ∃ b ∈ (env.rangeOrder dd).map Prod.snd, m ∈ b := by
  obtain ⟨p, hp, hmp⟩ := mem_entry_of_mem_mapGet dd k m hm
  exact ⟨p.2, List.mem_map.mpr ⟨p, (hr dd).mem_iff.mpr hp, rfl⟩, hmp⟩

/-- A retry event after which the function literal returns nil: the loop goes on with the
events after it, and when these end without error the call returns nil and sends the map. -/
theorem retry_HandleEvents_goes_on {F σ : Type} (env : Env F) (rh : RetryEventHandler F σ)
    (w w1 w2 : σ) (hash : Hash) (finalized : SignedBlock) (pre post : List (Event F))
    (evt : Event F) (s1 s2 : RetryState σ)
    (hfh : rh.conn.GetFinalizedHead w = (Outcome.ok hash, w1))
    (hgb : rh.conn.GetBlock hash w1 = (Outcome.ok (some finalized), w2))
    (hpre : rh.eventLoop env (finalized.Number % 2 ^ 32) pre
      ⟨[], w2, [ConnCall.GetFinalizedHead, ConnCall.GetBlock hash]⟩ = (Flow.returned none, s1))
    (hn : evt.Name = env.RetryEvent)
    (hb : rh.retryEvent env (finalized.Number % 2 ^ 32) evt s1 = (Flow.returned none, s2)) :
    rh.eventLoop env (finalized.Number % 2 ^ 32) (pre ++ evt :: post)
        ⟨[], w2, [ConnCall.GetFinalizedHead, ConnCall.GetBlock hash]⟩ =
      rh.eventLoop env (finalized.Number % 2 ^ 32) post s2 ∧
    ∀ s3, rh.eventLoop env (finalized.Number % 2 ^ 32) post s2 = (Flow.returned none, s3) →
      rh.HandleEvents env (pre ++ evt :: post) w =
        (Flow.returned none, (env.rangeOrder s3.domainDeposits).map Prod.snd, s3) ∧
      MapGrows s2.domainDeposits s3.domainDeposits := by
  have happ := retry_eventLoop_append env rh (finalized.Number % 2 ^ 32) pre (evt :: post)
    _ s1 hpre
  have hstep : rh.eventLoop env (finalized.Number % 2 ^ 32) (evt :: post) s1 =
      rh.eventLoop env (finalized.Number % 2 ^ 32) post s2 := by
    simp only [RetryEventHandler.eventLoop, if_pos hn, hb]
  refine ⟨happ.trans hstep, ?_⟩
  intro s3 h3
  have hall := retry_HandleEvents_of_loop env rh (pre ++ evt :: post) w w1 w2 hash finalized
    (Flow.returned none) s3 hfh hgb (by rw [happ, hstep, h3])
  refine ⟨by simpa using hall, ?_⟩
  have := retry_eventLoop_grows env rh (finalized.Number % 2 ^ 32) post s2
  rw [h3] at this
  exact this

/-- A retry event for which the function literal returns an error: the call returns that
error and sends nothing. -/
theorem retry_HandleEvents_stops {F σ : Type} (env : Env F) (rh : RetryEventHandler F σ)
    (w w1 w2 : σ) (hash : Hash) (finalized : SignedBlock) (pre post : List (Event F))
    (evt : Event F) (s1 s2 : RetryState σ) (e : GoError)
    (hfh : rh.conn.GetFinalizedHead w = (Outcome.ok hash, w1))
    (hgb : rh.conn.GetBlock hash w1 = (Outcome.ok (some finalized), w2))
    (hpre : rh.eventLoop env (finalized.Number % 2 ^ 32) pre
      ⟨[], w2, [ConnCall.GetFinalizedHead, ConnCall.GetBlock hash]⟩ = (Flow.returned none, s1))
    (hn : evt.Name = env.RetryEvent)
    (hb : rh.retryEvent env (finalized.Number % 2 ^ 32) evt s1 =
      (Flow.returned (some e), s2)) :
    rh.HandleEvents env (pre ++ evt :: post) w = (Flow.returned (some e), [], s2) := by
  have happ := retry_eventLoop_append env rh (finalized.Number % 2 ^ 32) pre (evt :: post)
    _ s1 hpre
  have hstep : rh.eventLoop env (finalized.Number % 2 ^ 32) (evt :: post) s1 =
      (Flow.returned (some e), s2) := by
    simp only [RetryEventHandler.eventLoop, if_pos hn, hb]
  have hall := retry_HandleEvents_of_loop env rh (pre ++ evt :: post) w w1 w2 hash finalized
    (Flow.returned (some e)) s2 hfh hgb (by rw [happ, hstep])
  simpa using hall

/-- C6, amended: in a `RetryEventHandler.HandleEvents` call whose loop is reached, let the
events `pre` be processed without error and a retry event `evt` follow them.
(1) If `evt` fails (its fields do not decode, or for a confirmed height `GetBlockHash` fails,
`GetBlockEvents` fails, or a deposit of the block fails to decode or is refused by
`HandleDeposit`), the event is not dropped: the loop stops, the call returns that error and
sends nothing, whatever was resolved before.
(2) If `evt` panics (in a decoder, in `GetBlockHash`, `GetBlockEvents` or `HandleDeposit`, or
on a nil message), the panic is recovered and the loop goes on with the events after `evt`
from the state the panic left; when these end without error the call returns nil and sends
the map, and every message in the map before `evt`, at the panic (so the messages of the block
resolved before the panic) or at the end is in a sent batch.
(3) If `evt` is confirmed and all deposits of its block succeed, the loop goes on likewise and
the messages of the block are in a sent batch when the call returns nil. -/
theorem retry_HandleEvents_panic_dropped_error_returned {F σ : Type} (env : Env F)
    (hr : env.RangeVisitsAll) (rh : RetryEventHandler F σ) (w w1 w2 : σ) (hash : Hash)
    (finalized : SignedBlock) (pre : List (Event F)) (s1 : RetryState σ)
    (hfh : rh.conn.GetFinalizedHead w = (Outcome.ok hash, w1))
    (hgb : rh.conn.GetBlock hash w1 = (Outcome.ok (some finalized), w2))
    (hpre : rh.eventLoop env (finalized.Number % 2 ^ 32) pre
      ⟨[], w2, [ConnCall.GetFinalizedHead, ConnCall.GetBlock hash]⟩ =
        (Flow.returned none, s1)) :
    (∀ (evt : Event F) (post : List (Event F)) (e : GoError) (s2 : RetryState σ),
      evt.Name = env.RetryEvent →
      rh.RetryFails env (finalized.Number % 2 ^ 32) evt s1 e s2 →
      rh.HandleEvents env (pre ++ evt :: post) w = (Flow.returned (some e), [], s2)) ∧
    (∀ (evt : Event F) (post : List (Event F)) (s2 : RetryState σ),
      evt.Name = env.RetryEvent →
      rh.RetryPanics env (finalized.Number % 2 ^ 32) evt s1 s2 →
      rh.eventLoop env (finalized.Number % 2 ^ 32) (pre ++ evt :: post)
          ⟨[], w2, [ConnCall.GetFinalizedHead, ConnCall.GetBlock hash]⟩ =
        rh.eventLoop env (finalized.Number % 2 ^ 32) post s2 ∧
      ∀ s3, rh.eventLoop env (finalized.Number % 2 ^ 32) post s2 = (Flow.returned none, s3) →
        rh.HandleEvents env (pre ++ evt :: post) w =
          (Flow.returned none, (env.rangeOrder s3.domainDeposits).map Prod.snd, s3) ∧
        ∀ k m, (m ∈ mapGet s1.domainDeposits k ∨ m ∈ mapGet s2.domainDeposits k ∨
            m ∈ mapGet s3.domainDeposits k) →
          ∃ b ∈ (env.rangeOrder s3.domainDeposits).map Prod.snd, m ∈ b) ∧
    (∀ (evt : Event F) (post : List (Event F)) (er : Retry) (bh : Hash) (wa wb wc : σ)
      (bEvts : List (Event F)) (ms : List Message),
      evt.Name = env.RetryEvent →
      env.decodeRetry evt.Fields = Outcome.ok er →
      er.DepositOnBlockHeight ≤ finalized.Number % 2 ^ 32 →
      rh.conn.GetBlockHash er.DepositOnBlockHeight s1.world = (Outcome.ok bh, wa) →
      rh.conn.GetBlockEvents bh wa = (Outcome.ok bEvts, wb) →
      rh.blockMessages env bEvts wb = some (ms, wc) →
      ∀ s3, rh.eventLoop env (finalized.Number % 2 ^ 32) post
          ⟨appendAll s1.domainDeposits ms, wc,
            s1.calls ++ [ConnCall.GetBlockHash er.DepositOnBlockHeight,
              ConnCall.GetBlockEvents bh]⟩ = (Flow.returned none, s3) →
        rh.HandleEvents env (pre ++ evt :: post) w =
          (Flow.returned none, (env.rangeOrder s3.domainDeposits).map Prod.snd, s3) ∧
        ∀ m ∈ ms, ∃ b ∈ (env.rangeOrder s3.domainDeposits).map Prod.snd, m ∈ b) := by
  refine ⟨?_, ?_, ?_⟩
  · intro evt post e s2 hn hf
    have hb := retry_retryBody_of_retryFails env rh finalized.Number evt s1 s2 e hf
    exact retry_HandleEvents_stops env rh w w1 w2 hash finalized pre post evt s1 s2 e hfh hgb
      hpre hn (by simp only [RetryEventHandler.retryEvent, hb, recoverDeferred])
  · intro evt post s2 hn hp
    have hb := retry_retryBody_of_retryPanics env rh finalized.Number evt s1 s2 hp
    obtain ⟨hgo, hend⟩ := retry_HandleEvents_goes_on env rh w w1 w2 hash finalized pre post evt
      s1 s2 hfh hgb hpre hn (by simp only [RetryEventHandler.retryEvent, hb, recoverDeferred])
    refine ⟨hgo, ?_⟩
    intro s3 h3
    obtain ⟨hcall, g23⟩ := hend s3 h3
    refine ⟨hcall, ?_⟩
    have g12 : MapGrows s1.domainDeposits s2.domainDeposits := by
      have := (retry_retryEvent_grows env rh (finalized.Number % 2 ^ 32) evt s1).1
      rw [hb] at this
      exact this
    intro k m hm
    apply retry_batches_hold_map env hr _ k m
    rcases hm with hm | hm | hm
    · exact mapGrows_mem (mapGrows_trans g12 g23) k m hm
    · exact mapGrows_mem g23 k m hm
    · exact hm
  · intro evt post er bh wa wb wc bEvts ms hn hdec hle h1 h2 hms s3 h3
    have hb := retry_retryBody_of_blockMessages env rh finalized.Number evt s1 er bh wa wb wc
      bEvts ms hdec hle h1 h2 hms
    obtain ⟨_, hend⟩ := retry_HandleEvents_goes_on env rh w w1 w2 hash finalized pre post evt
      s1 ⟨appendAll s1.domainDeposits ms, wc,
        s1.calls ++ [ConnCall.GetBlockHash er.DepositOnBlockHeight,
          ConnCall.GetBlockEvents bh]⟩
      hfh hgb hpre hn (by rw [RetryEventHandler.retryEvent, hb]; rfl)
    obtain ⟨hcall, g23⟩ := hend s3 h3
    refine ⟨hcall, ?_⟩
    intro m hm
    apply retry_batches_hold_map env hr _ m.Destination m
    exact mapGrows_mem g23 _ m (mem_mapGet_appendAll ms _ m hm)

/-- The theorem of C6 (amended) on sample events, after a retry of block `9`. The retry of
block `2` resolves the message with nonce `2` and is then refused by `HandleDeposit`: the call
returns that error, sends nothing and never looks up block `10`. The retry of block `3`
resolves the message with nonce `3` and then panics in `HandleDeposit`: the retries of block
`20` (not confirmed) and `10` that follow are still processed, the call returns nil, and the
messages of blocks `9`, `3` and `10` are sent. -/
theorem retry_HandleEvents_panic_dropped_error_returned_witness :
    sampleRetry.HandleEvents sampleEnv [⟨"Retry", 9⟩, ⟨"Retry", 2⟩, ⟨"Retry", 10⟩] 0 =
      (Flow.returned (some "refused"), [],
        ⟨[(0, [⟨1, 0, 9⟩, ⟨1, 0, 12⟩]), (2, [⟨1, 2, 2⟩])], 10,
          [ConnCall.GetFinalizedHead, ConnCall.GetBlock 100, ConnCall.GetBlockHash 9,
            ConnCall.GetBlockEvents 1009, ConnCall.GetBlockHash 2,
            ConnCall.GetBlockEvents 1002]⟩) ∧
    sampleRetry.HandleEvents sampleEnv
        [⟨"Retry", 9⟩, ⟨"Retry", 3⟩, ⟨"Retry", 20⟩, ⟨"Retry", 10⟩] 0 =
      (Flow.returned none, [[⟨1, 1, 10⟩, ⟨1, 1, 13⟩], [⟨1, 0, 9⟩, ⟨1, 0, 12⟩, ⟨1, 0, 3⟩]],
        ⟨[(0, [⟨1, 0, 9⟩, ⟨1, 0, 12⟩, ⟨1, 0, 3⟩]), (1, [⟨1, 1, 10⟩, ⟨1, 1, 13⟩])], 14,
          [ConnCall.GetFinalizedHead, ConnCall.GetBlock 100, ConnCall.GetBlockHash 9,
            ConnCall.GetBlockEvents 1009, ConnCall.GetBlockHash 3,
            ConnCall.GetBlockEvents 1003, ConnCall.GetBlockHash 10,
            ConnCall.GetBlockEvents 1010]⟩) :=
  have hall := retry_HandleEvents_panic_dropped_error_returned sampleEnv
    sampleEnv_rangeVisitsAll sampleRetry 0 1 2 100 ⟨10⟩ [⟨"Retry", 9⟩] sampleAfterNine
    (by decide) (by decide) (by decide)
  ⟨hall.1 ⟨"Retry", 2⟩ [⟨"Retry", 10⟩] "refused"
      ⟨[(0, [⟨1, 0, 9⟩, ⟨1, 0, 12⟩]), (2, [⟨1, 2, 2⟩])], 10,
        [ConnCall.GetFinalizedHead, ConnCall.GetBlock 100, ConnCall.GetBlockHash 9,
          ConnCall.GetBlockEvents 1009, ConnCall.GetBlockHash 2, ConnCall.GetBlockEvents 1002]⟩
      (by decide)
      (Or.inr ⟨⟨2⟩, by decide, by decide, Or.inr ⟨1002, 7, by decide,
        Or.inr ⟨[⟨"Deposit", 2⟩, ⟨"Other", 0⟩], ⟨"Deposit", 5⟩, [], 8, [⟨1, 2, 2⟩], 9, 10,
          by decide, by decide,
          ⟨by decide, Or.inr ⟨⟨2, 5, 0, [], 0⟩, by decide, by decide⟩⟩, by decide⟩⟩⟩),
    ((hall.2.1 ⟨"Retry", 3⟩ [⟨"Retry", 20⟩, ⟨"Retry", 10⟩]
      ⟨[(0, [⟨1, 0, 9⟩, ⟨1, 0, 12⟩, ⟨1, 0, 3⟩])], 10,
        [ConnCall.GetFinalizedHead, ConnCall.GetBlock 100, ConnCall.GetBlockHash 9,
          ConnCall.GetBlockEvents 1009, ConnCall.GetBlockHash 3, ConnCall.GetBlockEvents 1003]⟩
      (by decide)
      (Or.inr ⟨⟨3⟩, by decide, by decide, Or.inr ⟨1003, 7, by decide,
        Or.inr ⟨[⟨"Deposit", 3⟩, ⟨"Other", 0⟩], ⟨"Deposit", 6⟩, [], 8, [⟨1, 0, 3⟩], 9, 10,
          by decide, by decide,
          ⟨by decide, Or.inr ⟨⟨0, 6, 0, [], 0⟩, by decide, Or.inl (by decide)⟩⟩,
          by decide⟩⟩⟩)).2
      ⟨[(0, [⟨1, 0, 9⟩, ⟨1, 0, 12⟩, ⟨1, 0, 3⟩]), (1, [⟨1, 1, 10⟩, ⟨1, 1, 13⟩])], 14,
        [ConnCall.GetFinalizedHead, ConnCall.GetBlock 100, ConnCall.GetBlockHash 9,
          ConnCall.GetBlockEvents 1009, ConnCall.GetBlockHash 3, ConnCall.GetBlockEvents 1003,
          ConnCall.GetBlockHash 10, ConnCall.GetBlockEvents 1010]⟩
      (by decide)).1⟩

/-- C7: the confirmation check of `RetryEventHandler.HandleEvents`. In a call whose finalized
block is `finalized`, let the events `pre` be processed without error, leaving the state `s1`,
and let a retry event `evt` whose fields decode to `er` follow them.
(1) The event is skipped (handling it makes no connection call, so neither `GetBlockHash` nor
`GetBlockEvents`, leaves the map as it was and returns no error) if and only if the finalized
block number is strictly less than `er.DepositOnBlockHeight`.
(2) A skipped event changes nothing: the loop goes on with the next event from `s1`, and the
call behaves as if the event were not in the list.
(3) Otherwise (`er.DepositOnBlockHeight` at most the finalized number) the block at exactly
`er.DepositOnBlockHeight` is looked up: the next call is `GetBlockHash er.DepositOnBlockHeight`.
When the hash and the events of the block are fetched and its deposits all succeed, their
messages are appended to the map in event order, after the calls `GetBlockHash` and
`GetBlockEvents`, and the loop goes on; when the remaining events end without error the call
returns nil, sends the map, and every message of the block is in a sent batch. -/
theorem retry_confirmation_check {F σ : Type} (env : Env F) (hr : env.RangeVisitsAll)
    (rh : RetryEventHandler F σ) (w w1 w2 : σ) (hash : Hash) (finalized : SignedBlock)
    (pre : List (Event F)) (s1 : RetryState σ)
    (hfh : rh.conn.GetFinalizedHead w = (Outcome.ok hash, w1))
    (hgb : rh.conn.GetBlock hash w1 = (Outcome.ok (some finalized), w2))
    (hpre : rh.eventLoop env (finalized.Number % 2 ^ 32) pre
      ⟨[], w2, [ConnCall.GetFinalizedHead, ConnCall.GetBlock hash]⟩ =
        (Flow.returned none, s1))
    (evt : Event F) (post : List (Event F)) (er : Retry) (hn : evt.Name = env.RetryEvent)
    (hdec : env.decodeRetry evt.Fields = Outcome.ok er) :
    (((rh.retryEvent env (finalized.Number % 2 ^ 32) evt s1).2.calls = s1.calls ∧
        (rh.retryEvent env (finalized.Number % 2 ^ 32) evt s1).2.domainDeposits =
          s1.domainDeposits ∧
        (rh.retryEvent env (finalized.Number % 2 ^ 32) evt s1).1 = Flow.returned none) ↔
      finalized.Number % 2 ^ 32 < er.DepositOnBlockHeight) ∧
    (finalized.Number % 2 ^ 32 < er.DepositOnBlockHeight →
      rh.retryEvent env (finalized.Number % 2 ^ 32) evt s1 = (Flow.returned none, s1) ∧
      rh.eventLoop env (finalized.Number % 2 ^ 32) (pre ++ evt :: post)
          ⟨[], w2, [ConnCall.GetFinalizedHead, ConnCall.GetBlock hash]⟩ =
        rh.eventLoop env (finalized.Number % 2 ^ 32) post s1 ∧
      rh.HandleEvents env (pre ++ evt :: post) w = rh.HandleEvents env (pre ++ post) w) ∧
    (er.DepositOnBlockHeight ≤ finalized.Number % 2 ^ 32 →
      (∃ tail, (rh.retryEvent env (finalized.Number % 2 ^ 32) evt s1).2.calls =
        s1.calls ++ ConnCall.GetBlockHash er.DepositOnBlockHeight :: tail) ∧
      ∀ (bh : Hash) (wa wb wc : σ) (bEvts : List (Event F)) (ms : List Message),
        rh.conn.GetBlockHash er.DepositOnBlockHeight s1.world = (Outcome.ok bh, wa) →
        rh.conn.GetBlockEvents bh wa = (Outcome.ok bEvts, wb) →
        rh.blockMessages env bEvts wb = some (ms, wc) →
        rh.eventLoop env (finalized.Number % 2 ^ 32) (pre ++ evt :: post)
            ⟨[], w2, [ConnCall.GetFinalizedHead, ConnCall.GetBlock hash]⟩ =
          rh.eventLoop env (finalized.Number % 2 ^ 32) post
            ⟨appendAll s1.domainDeposits ms, wc,
              s1.calls ++ [ConnCall.GetBlockHash er.DepositOnBlockHeight,
                ConnCall.GetBlockEvents bh]⟩ ∧
        ∀ s3, rh.eventLoop env (finalized.Number % 2 ^ 32) post
            ⟨appendAll s1.domainDeposits ms, wc,
              s1.calls ++ [ConnCall.GetBlockHash er.DepositOnBlockHeight,
                ConnCall.GetBlockEvents bh]⟩ = (Flow.returned none, s3) →
          rh.HandleEvents env (pre ++ evt :: post) w =
            (Flow.returned none, (env.rangeOrder s3.domainDeposits).map Prod.snd, s3) ∧
          ∀ m ∈ ms, ∃ b ∈ (env.rangeOrder s3.domainDeposits).map Prod.snd, m ∈ b) := by
  have hskip : finalized.Number % 2 ^ 32 < er.DepositOnBlockHeight →
      rh.retryEvent env (finalized.Number % 2 ^ 32) evt s1 = (Flow.returned none, s1) := by
    intro hlt
    simp only [RetryEventHandler.retryEvent, RetryEventHandler.retryBody, hdec, if_pos hlt,
      recoverDeferred]
  have hcalls : er.DepositOnBlockHeight ≤ finalized.Number % 2 ^ 32 →
      ∃ tail, (rh.retryEvent env (finalized.Number % 2 ^ 32) evt s1).2.calls =
        s1.calls ++ ConnCall.GetBlockHash er.DepositOnBlockHeight :: tail := by
    intro hle
    have hlt : ¬ finalized.Number % 2 ^ 32 < er.DepositOnBlockHeight := Nat.not_lt.mpr hle
    have hfit := confirmed_height_fits finalized.Number _ hle
    have heq : rh.retryEvent env (finalized.Number % 2 ^ 32) evt s1 =
        recoverDeferred none (rh.resolveBlock env er.DepositOnBlockHeight s1) := by
      simp only [RetryEventHandler.retryEvent, RetryEventHandler.retryBody, hdec, if_neg hlt,
        hfit]
    rw [heq, recoverDeferred_snd]
    exact (retry_resolveBlock_calls env rh _ s1).1
  refine ⟨⟨?_, ?_⟩, ?_, ?_⟩
  · rintro ⟨hc, _, _⟩
    by_contra hlt
    obtain ⟨tail, ht⟩ := hcalls (Nat.not_lt.mp hlt)
    rw [hc] at ht
    have := congrArg List.length ht
    simp at this
  · intro hlt
    rw [hskip hlt]
    exact ⟨rfl, rfl, rfl⟩
  · intro hlt
    have hgo := (retry_HandleEvents_goes_on env rh w w1 w2 hash finalized pre post evt s1 s1
      hfh hgb hpre hn (hskip hlt)).1
    have hwithout := retry_eventLoop_append env rh (finalized.Number % 2 ^ 32) pre post _ s1
      hpre
    refine ⟨hskip hlt, hgo, ?_⟩
    simp only [RetryEventHandler.HandleEvents, hfh, hgb, hgo, hwithout]
  · intro hle
    refine ⟨hcalls hle, ?_⟩
    intro bh wa wb wc bEvts ms h1 h2 hms
    have hb := retry_retryBody_of_blockMessages env rh finalized.Number evt s1 er bh wa wb wc
      bEvts ms hdec hle h1 h2 hms
    obtain ⟨hgo, hend⟩ := retry_HandleEvents_goes_on env rh w w1 w2 hash finalized pre post evt
      s1 ⟨appendAll s1.domainDeposits ms, wc,
        s1.calls ++ [ConnCall.GetBlockHash er.DepositOnBlockHeight,
          ConnCall.GetBlockEvents bh]⟩
      hfh hgb hpre hn (by rw [RetryEventHandler.retryEvent, hb]; rfl)
    refine ⟨hgo, ?_⟩
    intro s3 h3
    obtain ⟨hcall, g23⟩ := hend s3 h3
    refine ⟨hcall, ?_⟩
    intro m hm
    apply retry_batches_hold_map env hr _ m.Destination m
    exact mapGrows_mem g23 _ m (mem_mapGet_appendAll ms _ m hm)

/-- The theorem of C7 on sample events, with finalized block `10` and after a retry of block
`9`. The retry of block `11` is skipped: the call with it is the call without it. The retry of
block `10` fetches the block and resolves its two deposits: the call returns nil and sends
them. -/
theorem retry_confirmation_check_witness :
    (sampleRetry.HandleEvents sampleEnv [⟨"Retry", 9⟩, ⟨"Retry", 11⟩, ⟨"Retry", 10⟩] 0 =
      sampleRetry.HandleEvents sampleEnv [⟨"Retry", 9⟩, ⟨"Retry", 10⟩] 0) ∧
    (10 % 2 ^ 32 < 11 →
      ((sampleRetry.retryEvent sampleEnv (10 % 2 ^ 32) ⟨"Retry", 11⟩ sampleAfterNine).2.calls =
          sampleAfterNine.calls ∧
        (sampleRetry.retryEvent sampleEnv (10 % 2 ^ 32) ⟨"Retry", 11⟩
          sampleAfterNine).2.domainDeposits = sampleAfterNine.domainDeposits ∧
        (sampleRetry.retryEvent sampleEnv (10 % 2 ^ 32) ⟨"Retry", 11⟩ sampleAfterNine).1 =
          Flow.returned none)) ∧
    sampleRetry.HandleEvents sampleEnv [⟨"Retry", 9⟩, ⟨"Retry", 10⟩] 0 =
      (Flow.returned none, [[⟨1, 1, 10⟩, ⟨1, 1, 13⟩], [⟨1, 0, 9⟩, ⟨1, 0, 12⟩]],
        ⟨[(0, [⟨1, 0, 9⟩, ⟨1, 0, 12⟩]), (1, [⟨1, 1, 10⟩, ⟨1, 1, 13⟩])], 10,
          [ConnCall.GetFinalizedHead, ConnCall.GetBlock 100, ConnCall.GetBlockHash 9,
            ConnCall.GetBlockEvents 1009, ConnCall.GetBlockHash 10,
            ConnCall.GetBlockEvents 1010]⟩) ∧
    (∀ m ∈ [(⟨1, 1, 10⟩ : Message), ⟨1, 1, 13⟩],
      ∃ b ∈ [[(⟨1, 1, 10⟩ : Message), ⟨1, 1, 13⟩], [⟨1, 0, 9⟩, ⟨1, 0, 12⟩]], m ∈ b) :=
  have skipped := retry_confirmation_check sampleEnv sampleEnv_rangeVisitsAll sampleRetry
    0 1 2 100 ⟨10⟩ [⟨"Retry", 9⟩] sampleAfterNine (by decide) (by decide) (by decide)
    ⟨"Retry", 11⟩ [⟨"Retry", 10⟩] ⟨11⟩ (by decide) (by decide)
  have looked := (((retry_confirmation_check sampleEnv sampleEnv_rangeVisitsAll sampleRetry
    0 1 2 100 ⟨10⟩ [⟨"Retry", 9⟩] sampleAfterNine (by decide) (by decide) (by decide)
    ⟨"Retry", 10⟩ [] ⟨10⟩ (by decide) (by decide)).2.2 (by decide)).2
    1010 7 8 10 [⟨"Deposit", 10⟩, ⟨"Other", 0⟩, ⟨"Deposit", 13⟩] [⟨1, 1, 10⟩, ⟨1, 1, 13⟩]
    (by decide) (by decide) (by decide)).2
    ⟨[(0, [⟨1, 0, 9⟩, ⟨1, 0, 12⟩]), (1, [⟨1, 1, 10⟩, ⟨1, 1, 13⟩])], 10,
      [ConnCall.GetFinalizedHead, ConnCall.GetBlock 100, ConnCall.GetBlockHash 9,
        ConnCall.GetBlockEvents 1009, ConnCall.GetBlockHash 10, ConnCall.GetBlockEvents 1010]⟩
    (by decide)
  ⟨(skipped.2.1 (by decide)).2.2, skipped.1.mpr, looked.1, looked.2⟩

/-! ## The elector configuration -/

/-- C4: every elector that `SetupIndividualTest` constructs, for any test case, host ids and
session ordering, is given a `BullyConfig` with
`PingWaitTime < ElectionWaitTime < BullyWaitTime` as integer comparisons of the durations in
nanoseconds, the values being 1 s, 2 s and 25 s. -/
theorem setup_timeout_hierarchy (testSessionID : String) (hostID : Nat → PeerID)
    (SortPeersForSession : List PeerID → String → List PeerID) (c : BullyTestCase)
    (r : List (Option ElectorArgs) × PeerID × PeerID × List PeerID)
    (h : SetupIndividualTest testSessionID hostID SortPeersForSession c = some r)
    (b : ElectorArgs) (hb : some b ∈ r.1) :
    b.conf.PingWaitTime < b.conf.ElectionWaitTime ∧
    b.conf.ElectionWaitTime < b.conf.BullyWaitTime ∧
    b.conf.PingWaitTime = 1000000000 ∧ b.conf.ElectionWaitTime = 2000000000 ∧
    b.conf.BullyWaitTime = 25000000000 := by
  have hconf : b.conf = testBullyConfig := by
    unfold SetupIndividualTest at h
    simp only at h
    split at h
    · cases h
    · split at h
      · cases h
      · cases h
        simp only [List.mem_map] at hb
        obtain ⟨i, _, hi⟩ := hb
        split at hi
        · cases hi
        · cases hi
          rfl
  rw [hconf]
  simp only [testBullyConfig, toInt64, Second]
  norm_num

/-- The theorem of C4 on the test case "leader not active" with sample host ids and ordering:
the setup succeeds, the host with id `10` gets an elector, and its configuration satisfies the
hierarchy. -/
theorem setup_timeout_hierarchy_witness :
    SetupIndividualTest "1" sampleHostID sampleSortPeers testCaseLeaderNotActive =
      some ([some ⟨"1", 10, testBullyConfig⟩, some ⟨"1", 11, testBullyConfig⟩,
        some ⟨"1", 12, testBullyConfig⟩, some ⟨"1", 13, testBullyConfig⟩, none],
        14, 13, [10, 11, 12, 13, 14]) ∧
    (testBullyConfig.PingWaitTime < testBullyConfig.ElectionWaitTime ∧
      testBullyConfig.ElectionWaitTime < testBullyConfig.BullyWaitTime ∧
      testBullyConfig.PingWaitTime = 1000000000 ∧
      testBullyConfig.ElectionWaitTime = 2000000000 ∧
      testBullyConfig.BullyWaitTime = 25000000000) :=
  ⟨by decide,
    setup_timeout_hierarchy "1" sampleHostID sampleSortPeers testCaseLeaderNotActive
      ([some ⟨"1", 10, testBullyConfig⟩, some ⟨"1", 11, testBullyConfig⟩,
        some ⟨"1", 12, testBullyConfig⟩, some ⟨"1", 13, testBullyConfig⟩, none],
        14, 13, [10, 11, 12, 13, 14])
      (by decide) ⟨"1", 10, testBullyConfig⟩ (by decide)⟩

end Sygma
